import Mathlib

/-!
# A shallow embedding of `logger.go` (package `logger`)

The Go source is one file: a leveled logger with key/value fields, a text and a
JSON rendering, redaction of sensitive keys, and a package-wide default logger.

Modelling decisions, all visible in the definitions below:

* `Level` is Go's `type Level int`: an `Int`, with the five named constants.
* A Go `map[K]V` is an association list with at most one entry per key
  (`GoMap.get`, `GoMap.set`); `m[k]` on a missing key is the zero value.
* A Go `string` is a Lean `String` (a sequence of Unicode scalar values), so the
  inputs covered are the strings that are valid UTF-8.
* `interface{}` values are the closed sum `Value`: the values whose `Error()`,
  `String()` and `%v` printing return a text. A value on which one of these
  panics (a nil pointer held in an `error`) or does not return (a map that
  contains itself) has no counterpart in `Value`; a Go call that prints such
  a field value does not return, and the theorems do not speak of it.
* Pointers (`*Logger`, `*log.Logger`, map references) are addresses into the
  heaps of a `World`; writes to a sink and `os.Exit` are events of its trace.
* The order in which a `range` loop visits a map is not fixed by Go: every
  function that loops over a map takes the enumeration as the parameter
  `range`, and the theorems assume only that it permutes the map (`IsRange`).
* What the Go standard library does and this repository does not define
  (case tables outside ASCII, `fmt.Sprintf` of the message, `json.Marshal`,
  printing of values that are neither text, integer, boolean nor nil) is the
  parameter `Lib`; every theorem holds for every `Lib`.
-/

namespace logger

/-! ## Go maps -/

namespace GoMap

/-- The lookup `m[k]` with the comma-ok result: `none` when `k` is not a key. -/
def get {κ ν : Type} [DecidableEq κ] : List (κ × ν) → κ → Option ν
  | [], _ => none
  | (k', v) :: rest, k => if k' = k then some v else get rest k

/-- The assignment `m[k] = v`: replaces the entry of `k`, or adds one. -/
def set {κ ν : Type} [DecidableEq κ] : List (κ × ν) → κ → ν → List (κ × ν)
  | [], k, v => [(k, v)]
  | (k', v') :: rest, k, v =>
      if k' = k then (k, v) :: rest else (k', v') :: set rest k v

/-- The keys of a map, in stored order. -/
def keys {κ ν : Type} (m : List (κ × ν)) : List κ := m.map Prod.fst

/-- A map has one entry per key. -/
def WF {κ ν : Type} (m : List (κ × ν)) : Prop := (keys m).Nodup

end GoMap

/-! ## Values of type `interface{}` -/

/-- The dynamic values a field can hold: the untyped `nil`, a `string`, a value
implementing `error` (with the text of `Error()`), a value implementing
`fmt.Stringer` but not `error` (with the text of `String()`), an integer, a
boolean, and any other value, named by a tag. -/
inductive Value where
  | nil : Value
  | str (s : String) : Value
  | err (msg : String) : Value
  | stringer (s : String) : Value
  | int (n : Int) : Value
  | bool (b : Bool) : Value
  | other (tag : Nat) : Value
  deriving DecidableEq, Repr

/-- Fields 定义日志字段类型: `type Fields map[string]interface{}`. -/
abbrev Fields := List (String × Value)

/-! ## The standard library, as far as the package uses it -/

/-- The behaviour of the Go standard library that the package relies on and
that is not fixed by this development. `upperOther` and `lowerOther` are
`unicode.ToUpper` and `unicode.ToLower` on runes above `unicode.MaxASCII`;
`sprintf` is `fmt.Sprintf` applied to the caller's template and arguments;
`quoteOther` is what `strconv.Quote` emits for a rune above ASCII;
`showOther` is `%v` of a value that is neither text, integer, boolean nor nil;
`marshal` is `json.Marshal` of a record (`none` when it returns an error). -/
structure Lib where
  upperOther : Char → Char
  lowerOther : Char → Char
  sprintf : String → List Value → String
  quoteOther : Char → String
  showOther : Nat → String
  marshal : Fields → Option String

/-- A value of `time.Time`, seen through `Format(layout)`. -/
structure Time where
  Format : String → String

namespace unicode

/-- Go's `unicode.ToUpper`: within ASCII, `a..z` move down by `'a' - 'A'` and
every other rune is unchanged; above ASCII the case table decides. -/
def ToUpper (lib : Lib) (r : Char) : Char :=
  if r.toNat ≤ 127 then
    if 'a'.toNat ≤ r.toNat ∧ r.toNat ≤ 'z'.toNat then Char.ofNat (r.toNat - 32) else r
  else lib.upperOther r

/-- Go's `unicode.ToLower`: within ASCII, `A..Z` move up by `'a' - 'A'` and
every other rune is unchanged; above ASCII the case table decides. -/
def ToLower (lib : Lib) (r : Char) : Char :=
  if r.toNat ≤ 127 then
    if 'A'.toNat ≤ r.toNat ∧ r.toNat ≤ 'Z'.toNat then Char.ofNat (r.toNat + 32) else r
  else lib.lowerOther r

end unicode

namespace strings

/-- Go's `strings.ToUpper`: `unicode.ToUpper` on every rune. -/
def ToUpper (lib : Lib) (s : String) : String :=
  String.mk (s.data.map (unicode.ToUpper lib))

/-- Go's `strings.ToLower`: `unicode.ToLower` on every rune. -/
def ToLower (lib : Lib) (s : String) : String :=
  String.mk (s.data.map (unicode.ToLower lib))

/-- Go's `strings.Join`. -/
def Join (parts : List String) (sep : String) : String :=
  String.intercalate sep parts

end strings

/-! ## Levels -/

/-- Level 日志级别: `type Level int`. -/
abbrev Level := Int

/-- DEBUG 调试级别. -/
def DEBUG : Level := 0
/-- INFO 信息级别. -/
def INFO : Level := 1
/-- WARN 警告级别. -/
def WARN : Level := 2
/-- ERROR 错误级别. -/
def ERROR : Level := 3
/-- FATAL 致命错误级别. -/
def FATAL : Level := 4

/-- The five declared levels. -/
def allLevels : List Level := [DEBUG, INFO, WARN, ERROR, FATAL]

/-- The table `levelNames`. -/
def levelNames : List (Level × String) :=
  [(DEBUG, "DEBUG"), (INFO, "INFO"), (WARN, "WARN"), (ERROR, "ERROR"), (FATAL, "FATAL")]

/-- The expression `levelNames[level]`: the name, or `""` for a missing key. -/
def levelName (level : Level) : String :=
  (GoMap.get levelNames level).getD ""

/-- The reverse table, 日志级别反向映射: the loop of `init` that fills `nameToLevel` from
`levelNames`, one assignment `nameToLevel[name] = level` per entry. -/
def nameToLevel : List (String × Level) :=
  levelNames.foldl (fun m e => GoMap.set m e.2 e.1) []

/-- ParseLevel 解析日志级别字符串. The result is Go's pair `(Level, error)`; the
error is `none` for `nil` and otherwise carries the text of the error. -/
def ParseLevel (lib : Lib) (level : String) : Level × Option String :=
  match GoMap.get nameToLevel (strings.ToUpper lib level) with
  | some lvl => (lvl, none)
  | none => (DEBUG, some ("未知的日志级别: " ++ level))

/-! ## Formatting -/

namespace strconv

/-- The table `lowerhex` of `strconv`. -/
def lowerhex (n : Nat) : Char := "0123456789abcdef".data.getD n '0'

/-- What `strconv.Quote` appends for one rune: the quote and the backslash are
backslashed; a printable ASCII rune stands for itself; the control characters
are `\a \b \f \n \r \t \v` or `\x` and two hexadecimal digits; a rune above
ASCII is left to the library. -/
def escapeRune (lib : Lib) (r : Char) : String :=
  if r = '"' ∨ r = '\\' then String.mk ['\\', r]
  else if r.toNat ≤ 127 then
    if 32 ≤ r.toNat ∧ r.toNat ≤ 126 then String.singleton r
    else if r.toNat = 7 then "\\a"
    else if r.toNat = 8 then "\\b"
    else if r.toNat = 12 then "\\f"
    else if r.toNat = 10 then "\\n"
    else if r.toNat = 13 then "\\r"
    else if r.toNat = 9 then "\\t"
    else if r.toNat = 11 then "\\v"
    else String.mk ['\\', 'x', lowerhex (r.toNat / 16), lowerhex (r.toNat % 16)]
  else lib.quoteOther r

/-- Go's `strconv.Quote`, which is what the verb `%q` prints for a string. -/
def Quote (lib : Lib) (s : String) : String :=
  "\"" ++ String.join (s.data.map (escapeRune lib)) ++ "\""

end strconv

namespace fmt

/-- The verb `%-7s` and its like: the text, then spaces up to `width` runes. -/
def padRight (width : Nat) (s : String) : String :=
  s ++ String.mk (List.replicate (width - s.length) ' ')

/-- The verb `%v` on a value. -/
def Sprintv (lib : Lib) : Value → String
  | Value.nil => "<nil>"
  | Value.str s => s
  | Value.err msg => msg
  | Value.stringer s => s
  | Value.int n => toString n
  | Value.bool b => if b then "true" else "false"
  | Value.other tag => lib.showOther tag

/-- Go's `fmt.Sprintf(format, v...)` for the message of a call: a template
without `%` and without operands is printed as it stands; everything else is
left to the library. -/
def Sprintf (lib : Lib) (format : String) (v : List Value) : String :=
  if v = [] ∧ '%' ∉ format.data then format else lib.sprintf format v

end fmt

/-- The layout `time.RFC3339Nano`. -/
def RFC3339Nano : String := "2006-01-02T15:04:05.999999999Z07:00"

/-- ANSI 颜色代码: the table `colors`. -/
def colors : List (Level × String) :=
  [(DEBUG, "\x1b[36m"), (INFO, "\x1b[32m"), (WARN, "\x1b[33m"), (ERROR, "\x1b[31m"),
    (FATAL, "\x1b[35m")]

/-- The constant `reset`. -/
def reset : String := "\x1b[0m"

/-- formatValue 格式化字段值: `%q` for a string, an error and a Stringer, in
that order of the type switch, and `%v` for every other value. -/
def formatValue (lib : Lib) : Value → String
  | Value.str val => strconv.Quote lib val
  | Value.err msg => strconv.Quote lib msg
  | Value.stringer s => strconv.Quote lib s
  | val => fmt.Sprintv lib val

/-- The local table `sensitiveKeys` of `filterSensitiveData`. -/
def sensitiveKeys : List (String × Bool) :=
  [("password", true), ("token", true), ("credit_card", true), ("secret", true)]

/-- filterSensitiveData 过滤敏感信息. -/
def filterSensitiveData (lib : Lib) (key : String) (value : Value) : Value :=
  if (GoMap.get sensitiveKeys (strings.ToLower lib key)).getD false = true then
    Value.str "[FILTERED]"
  else value

/-! ## The state: heaps and the trace of effects -/

/-- What the process does to the outside: a `Write` of `data` on a sink, and
`os.Exit(code)`. -/
inductive Event where
  | write (sink : Nat) (data : String) : Event
  | exit (code : Int) : Event
  deriving DecidableEq, Repr

/-- A `*log.Logger` made by `log.New(out, pfx, 0)`: the sink it writes to and
the text it puts in front of every line. -/
structure StdLogger where
  out : Nat
  pfx : String
  deriving DecidableEq, Repr

/-- Logger 日志记录器. `output` names a sink, `logger` is the address of a
`*log.Logger`, `fields` the address of a map. The field `pfx` is the
source's `prefix`, and the mutex `mu` has no counterpart in a sequential model. -/
structure Logger where
  level : Level
  output : Nat
  pfx : String
  logger : Nat
  colored : Bool
  fields : Nat
  jsonMode : Bool
  deriving DecidableEq, Repr

/-- The state of the process: the allocated `Logger`s, `log.Logger`s and maps
(an address is an index), and the effects so far. -/
structure World where
  loggers : List Logger
  stdLoggers : List StdLogger
  maps : List Fields
  trace : List Event
  deriving DecidableEq, Repr

namespace World

/-- The map at an address; an address that names no map reads as an empty map,
as Go's nil map does. -/
def mapAt (w : World) (a : Nat) : Fields := (w.maps[a]?).getD []

/-- One more effect. -/
def emit (w : World) (e : Event) : World := { w with trace := w.trace ++ [e] }

/-- Every pointer of every logger names an allocated object, and every
allocated map has one entry per key. -/
def WF (w : World) : Prop :=
  (∀ lg ∈ w.loggers, lg.logger < w.stdLoggers.length ∧ lg.fields < w.maps.length) ∧
    (∀ m ∈ w.maps, GoMap.WF m)

end World

/-- The order in which one `range` loop visits a map is some enumeration of its
entries: a `range` function is admissible when it permutes every map. -/
def IsRange (range : Fields → Fields) : Prop := ∀ m, (range m).Perm m

namespace StdLogger

/-- The bytes `Output` of `log.Logger` with flags 0 assembles for a text: the
prefix, the text, and a newline when the text does not end in one. -/
def line (lg : StdLogger) (s : String) : String :=
  lg.pfx ++ s ++ (if s.data.getLast? = some '\n' then "" else "\n")

/-- The method `Output` of `log.Logger` with flags 0: one `Write` of the
assembled bytes on the sink. A nil receiver panics (`none`). -/
def Output (w : World) (a : Nat) (s : String) : Option World :=
  match w.stdLoggers[a]? with
  | none => none
  | some lg => some (w.emit (Event.write lg.out (line lg s)))

/-- The method `Printf`, applied to the already formatted text. -/
def Printf (w : World) (a : Nat) (s : String) : Option World := Output w a s

/-- The method `Println` on one string: `fmt.Sprintln` adds the newline. -/
def Println (w : World) (a : Nat) (s : String) : Option World := Output w a (s ++ "\n")

end StdLogger

/-! ## The logger -/

/-- NewLogger 创建新的日志记录器: allocates the `log.Logger`, the empty map
and the `Logger`, and returns the address of the last. -/
def NewLogger (w : World) (out : Nat) (pfx : String) (level : Level) : World × Nat :=
  ({ w with
      loggers := w.loggers ++
        [{ output := out, pfx := pfx, level := level, logger := w.stdLoggers.length,
           colored := true, fields := w.maps.length, jsonMode := false }]
      stdLoggers := w.stdLoggers ++ [{ out := out, pfx := pfx }]
      maps := w.maps ++ [[]] },
    w.loggers.length)

namespace Logger

/-- The first loop of `WithFields`, 复制现有字段: every entry of the parent's
map, in the order `range` gives, is assigned into the new map. -/
def copyFields (range : Fields → Fields) (parent fresh : Fields) : Fields :=
  (range parent).foldl (fun acc e => GoMap.set acc e.1 e.2) fresh

/-- The second loop of `WithFields`, 添加新字段: every entry of the argument is
passed through `filterSensitiveData` and assigned unless the result is nil. -/
def addFields (lib : Lib) (range : Fields → Fields) (fields acc : Fields) : Fields :=
  (range fields).foldl
    (fun acc e =>
      if filterSensitiveData lib e.1 e.2 ≠ Value.nil then
        GoMap.set acc e.1 (filterSensitiveData lib e.1 e.2)
      else acc)
    acc

/-- WithFields 返回带有指定字段的新日志记录器. The new `Logger` takes the
parent's level, sink, prefix, `log.Logger`, colour flag and JSON flag, and a
map made by `make(Fields)`, filled by the two loops. A nil receiver panics. -/
def WithFields (lib : Lib) (range : Fields → Fields) (w : World) (l : Nat) (fields : Fields) :
    Option (World × Nat) :=
  match w.loggers[l]? with
  | none => none
  | some old =>
      let newLogger : Logger :=
        { level := old.level, output := old.output, pfx := old.pfx, logger := old.logger,
          colored := old.colored, fields := w.maps.length, jsonMode := old.jsonMode }
      let newFields := addFields lib range fields (copyFields range (w.mapAt old.fields) [])
      some ({ w with loggers := w.loggers ++ [newLogger], maps := w.maps ++ [newFields] },
        w.loggers.length)

/-- WithField 添加单个字段. -/
def WithField (lib : Lib) (range : Fields → Fields) (w : World) (l : Nat) (key : String)
    (value : Value) : Option (World × Nat) :=
  WithFields lib range w l [(key, value)]

/-- WithError 添加错误信息; `err` is the text of `err.Error()`, and a nil
error panics. -/
def WithError (lib : Lib) (range : Fields → Fields) (w : World) (l : Nat) (err : Option String) :
    Option (World × Nat) :=
  match err with
  | none => none
  | some msg => WithField lib range w l "error" (Value.str msg)

/-- SetLevel 设置日志级别. -/
def SetLevel (w : World) (l : Nat) (level : Level) : Option World :=
  match w.loggers[l]? with
  | none => none
  | some lg => some { w with loggers := w.loggers.set l { lg with level := level } }

/-- SetColored 设置是否启用颜色输出. -/
def SetColored (w : World) (l : Nat) (colored : Bool) : Option World :=
  match w.loggers[l]? with
  | none => none
  | some lg => some { w with loggers := w.loggers.set l { lg with colored := colored } }

/-- SetJSONMode 设置是否使用JSON格式输出. -/
def SetJSONMode (w : World) (l : Nat) (enabled : Bool) : Option World :=
  match w.loggers[l]? with
  | none => none
  | some lg => some { w with loggers := w.loggers.set l { lg with jsonMode := enabled } }

/-- The step 构建字段信息: the string `fields` of `writeTextLog`, empty for an empty
map and otherwise a space followed by the parts `key=value` joined by spaces. -/
def fieldsText (lib : Lib) (range : Fields → Fields) (m : Fields) : String :=
  if m.length > 0 then
    " " ++ strings.Join ((range m).map (fun e => e.1 ++ "=" ++ formatValue lib e.2)) " "
  else ""

/-- The text that `writeTextLog` hands to `Printf`, after `Printf` has filled
the template `"%s%-7s%s %s %s %s"` (colour) or `"%-7s %s %s %s"` (no colour). -/
def textLine (lib : Lib) (range : Fields → Fields) (colored : Bool) (m : Fields)
    (level : Level) (now : Time) (msg : String) : String :=
  let levelName := "[" ++ levelName level ++ "]"
  let timestamp := now.Format "2006.01.02 15:04:05.000"
  let fields := fieldsText lib range m
  if colored then
    (GoMap.get colors level).getD "" ++ fmt.padRight 7 levelName ++ reset ++ " " ++ timestamp
      ++ " " ++ msg ++ " " ++ fields
  else
    fmt.padRight 7 levelName ++ " " ++ timestamp ++ " " ++ msg ++ " " ++ fields

/-- writeTextLog 写入文本格式日志. -/
def writeTextLog (lib : Lib) (range : Fields → Fields) (w : World) (lg : Logger)
    (level : Level) (now : Time) (msg : String) : Option World :=
  StdLogger.Printf w lg.logger (textLine lib range lg.colored (w.mapAt lg.fields) level now msg)

/-- The record `logEntry` of `writeJSONLog`: the three reserved keys, then
every field assigned over them, 添加字段. -/
def logEntry (range : Fields → Fields) (m : Fields) (level : Level) (now : Time)
    (msg : String) : Fields :=
  (range m).foldl (fun acc e => GoMap.set acc e.1 e.2)
    [("timestamp", Value.str (now.Format RFC3339Nano)),
     ("level", Value.str (levelName level)),
     ("message", Value.str msg)]

/-- writeJSONLog 写入JSON格式日志: when `json.Marshal` fails, 回退到普通格式. -/
def writeJSONLog (lib : Lib) (range : Fields → Fields) (w : World) (lg : Logger)
    (level : Level) (now : Time) (msg : String) : Option World :=
  match lib.marshal (logEntry range (w.mapAt lg.fields) level now msg) with
  | none => writeTextLog lib range w lg level now msg
  | some jsonData => StdLogger.Println w lg.logger jsonData

/-- The method `log`, 输出日志. `now` is what `time.Now()` returns in this call. A call
below the logger's level returns at once; otherwise the record is written in
the JSON or the text form, and a call at FATAL then exits with status 1. -/
def log (lib : Lib) (range : Fields → Fields) (now : Time) (w : World) (l : Nat)
    (level : Level) (format : String) (v : List Value) : Option World :=
  match w.loggers[l]? with
  | none => none
  | some lg =>
      if level < lg.level then some w
      else
        let msg := fmt.Sprintf lib format v
        let written :=
          if lg.jsonMode = true then writeJSONLog lib range w lg level now msg
          else writeTextLog lib range w lg level now msg
        match written with
        | none => none
        | some w1 => if level = FATAL then some (w1.emit (Event.exit 1)) else some w1

/-- Debug 输出调试级别日志. -/
def Debug (lib : Lib) (range : Fields → Fields) (now : Time) (w : World) (l : Nat)
    (format : String) (v : List Value) : Option World :=
  log lib range now w l DEBUG format v

/-- Info 输出信息级别日志. -/
def Info (lib : Lib) (range : Fields → Fields) (now : Time) (w : World) (l : Nat)
    (format : String) (v : List Value) : Option World :=
  log lib range now w l INFO format v

/-- Warn 输出警告级别日志. -/
def Warn (lib : Lib) (range : Fields → Fields) (now : Time) (w : World) (l : Nat)
    (format : String) (v : List Value) : Option World :=
  log lib range now w l WARN format v

/-- Error 输出错误级别日志. -/
def Error (lib : Lib) (range : Fields → Fields) (now : Time) (w : World) (l : Nat)
    (format : String) (v : List Value) : Option World :=
  log lib range now w l ERROR format v

/-- Fatal 输出致命错误级别日志并退出程序. -/
def Fatal (lib : Lib) (range : Fields → Fields) (now : Time) (w : World) (l : Nat)
    (format : String) (v : List Value) : Option World :=
  log lib range now w l FATAL format v

end Logger

/-! ## The default logger -/

/-- The sink `os.Stdout`. -/
def Stdout : Nat := 0

/-- The state before `init`: nothing allocated, nothing written. -/
def World.empty : World := { loggers := [], stdLoggers := [], maps := [], trace := [] }

/-- The part of `init` that sets `defaultLogger`:
`NewLogger(os.Stdout, "", DEBUG)` in the empty state. -/
def init : World × Nat := NewLogger World.empty Stdout "" DEBUG

/-- The default logger, 默认日志记录器: the address `init` stores in `defaultLogger`. -/
def defaultLogger : Nat := init.2

/-- SetOutput 设置日志输出目标: the default logger gets the new sink and a new
`log.Logger` on it, made with the logger's own prefix. -/
def SetOutput (w : World) (out : Nat) : Option World :=
  match w.loggers[defaultLogger]? with
  | none => none
  | some lg =>
      some { w with
        loggers := w.loggers.set defaultLogger
          { lg with output := out, logger := w.stdLoggers.length }
        stdLoggers := w.stdLoggers ++ [{ out := out, pfx := lg.pfx }] }

/-! ## Package-level functions, 包级别函数: each forwards to the default logger -/

/-- The package-level `Debug`. -/
def Debug (lib : Lib) (range : Fields → Fields) (now : Time) (w : World) (format : String)
    (v : List Value) : Option World :=
  Logger.Debug lib range now w defaultLogger format v

/-- The package-level `Info`. -/
def Info (lib : Lib) (range : Fields → Fields) (now : Time) (w : World) (format : String)
    (v : List Value) : Option World :=
  Logger.Info lib range now w defaultLogger format v

/-- The package-level `Warn`. -/
def Warn (lib : Lib) (range : Fields → Fields) (now : Time) (w : World) (format : String)
    (v : List Value) : Option World :=
  Logger.Warn lib range now w defaultLogger format v

/-- The package-level `Error`. -/
def Error (lib : Lib) (range : Fields → Fields) (now : Time) (w : World) (format : String)
    (v : List Value) : Option World :=
  Logger.Error lib range now w defaultLogger format v

/-- The package-level `Fatal`. -/
def Fatal (lib : Lib) (range : Fields → Fields) (now : Time) (w : World) (format : String)
    (v : List Value) : Option World :=
  Logger.Fatal lib range now w defaultLogger format v

/-- The package-level `WithFields`. -/
def WithFields (lib : Lib) (range : Fields → Fields) (w : World) (fields : Fields) :
    Option (World × Nat) :=
  Logger.WithFields lib range w defaultLogger fields

/-- The package-level `WithField`. -/
def WithField (lib : Lib) (range : Fields → Fields) (w : World) (key : String)
    (value : Value) : Option (World × Nat) :=
  Logger.WithField lib range w defaultLogger key value

/-- The package-level `WithError`. -/
def WithError (lib : Lib) (range : Fields → Fields) (w : World) (err : Option String) :
    Option (World × Nat) :=
  Logger.WithError lib range w defaultLogger err

/-- The package-level `SetLevel`, 设置日志级别. -/
def SetLevel (w : World) (level : Level) : Option World :=
  Logger.SetLevel w defaultLogger level

/-- The package-level `SetColored`, 设置是否启用颜色输出. -/
def SetColored (w : World) (colored : Bool) : Option World :=
  Logger.SetColored w defaultLogger colored

/-- The package-level `SetJSONMode`, 设置是否使用JSON格式输出. -/
def SetJSONMode (w : World) (enabled : Bool) : Option World :=
  Logger.SetJSONMode w defaultLogger enabled

/-! ## Notions used to state the properties -/

/-- Go's `strings.Contains`. -/
def Contains (s substr : String) : Prop := substr.data <:+: s.data

/-- A library instance for evaluating the definitions on concrete inputs:
runes above ASCII have no case and the template is printed as it stands. Its
`marshal` is a stand-in that returns no text for any record, which is not what
`json.Marshal` does on a record of strings: this instance serves to evaluate
the text rendering, and no JSON line is computed with it. -/
def Lib.plain : Lib :=
  { upperOther := fun c => c
    lowerOther := fun c => c
    sprintf := fun format _ => format
    quoteOther := fun c => String.singleton c
    showOther := fun _ => "?"
    marshal := fun _ => none }

/-- The string `s` is a canonical name with the case of some of its letters
changed: rune by rune, it is the rune of the name or its lower-case form. -/
def IsCaseVariant (s name : String) : Prop :=
  List.Forall₂ (fun a b => a = b ∨ a = b.toLower) s.data name.data

/-- Two strings are equal up to case: they have the same length and, rune by
rune, the same upper-case form. -/
def EqIgnoreCase (lib : Lib) (s t : String) : Prop :=
  List.Forall₂ (fun a b => unicode.ToUpper lib a = unicode.ToUpper lib b) s.data t.data

/-- A string of ASCII runes only. -/
def IsASCII (s : String) : Prop := ∀ c ∈ s.data, c.toNat ≤ 127

/-- The effect of a call that passes the level filter: one write on the sink,
then the exit when the level is FATAL. -/
def World.logged (w : World) (sink : Nat) (data : String) (level : Level) : World :=
  if level = FATAL then (w.emit (Event.write sink data)).emit (Event.exit 1)
  else w.emit (Event.write sink data)

/-- A clock reading for evaluating the definitions on concrete inputs. -/
def sampleTime : Time :=
  { Format := fun layout =>
      if layout = RFC3339Nano then "2024-01-02T03:04:05.678901234Z"
      else "2024.01.02 03:04:05.678" }

/-- A state for evaluating the definitions on concrete inputs: one logger at
level INFO on sink 5, made by `NewLogger`. -/
def sampleWorld : World := (NewLogger World.empty 5 "" INFO).1

/-- The keys whose values are redacted, as the specification lists them. -/
def denylist : List String := ["password", "token", "credit_card", "secret"]

/-- The redaction marker. -/
def marker : Value := Value.str "[FILTERED]"

/-- The sample state with colour switched off by `SetColored(false)`. -/
def plainWorld : World := (Logger.SetColored sampleWorld 0 false).getD sampleWorld

/-- The part of the text line after the level token: a space, the timestamp, a
space, the message, a space and the fields string. -/
def Logger.lineTail (lib : Lib) (range : Fields → Fields) (m : Fields) (now : Time)
    (msg : String) : String :=
  " " ++ now.Format "2006.01.02 15:04:05.000" ++ " " ++ msg ++ " " ++
    Logger.fieldsText lib range m

/-- The sample state with the JSON form switched on by `SetJSONMode(true)`. -/
def jsonWorld : World := (Logger.SetJSONMode sampleWorld 0 true).getD sampleWorld

/-- A rune that `strconv.Quote` copies as it stands: printable ASCII other than
the double quote and the backslash. -/
def IsPlainRune (c : Char) : Prop := 32 ≤ c.toNat ∧ c.toNat ≤ 126 ∧ c ≠ '"' ∧ c ≠ '\\'

/-! ## Sequences of calls -/

/-- A call of the package's API on a state: the constructor, the three
derivations, the setters, and a logging call at a level (`Debug` to `Fatal` are
the levels DEBUG to FATAL). -/
inductive Call where
  | newLogger (out : Nat) (pfx : String) (level : Level) : Call
  | withFields (l : Nat) (fields : Fields) : Call
  | withField (l : Nat) (key : String) (value : Value) : Call
  | withError (l : Nat) (err : Option String) : Call
  | setLevel (l : Nat) (level : Level) : Call
  | setColored (l : Nat) (colored : Bool) : Call
  | setJSONMode (l : Nat) (enabled : Bool) : Call
  | setOutput (out : Nat) : Call
  | log (l : Nat) (level : Level) (format : String) (v : List Value) : Call

/-- The state after one call, `none` when the call panics. -/
def Call.run (lib : Lib) (range : Fields → Fields) (now : Time) (w : World) :
    Call → Option World
  | Call.newLogger out pfx level => some (NewLogger w out pfx level).1
  | Call.withFields l fields => (Logger.WithFields lib range w l fields).map Prod.fst
  | Call.withField l key value => (Logger.WithField lib range w l key value).map Prod.fst
  | Call.withError l err => (Logger.WithError lib range w l err).map Prod.fst
  | Call.setLevel l level => Logger.SetLevel w l level
  | Call.setColored l colored => Logger.SetColored w l colored
  | Call.setJSONMode l enabled => Logger.SetJSONMode w l enabled
  | Call.setOutput out => SetOutput w out
  | Call.log l level format v => Logger.log lib range now w l level format v

/-- The process has not exited. -/
def World.Alive (w : World) : Prop := ∀ code, Event.exit code ∉ w.trace

/-- The states a program can be in: the empty state, and every state that one
call makes of a reachable state in which the process is alive, whatever order
the iterations over maps take and whatever the clock shows. -/
inductive Reachable (lib : Lib) : World → Prop where
  | start : Reachable lib World.empty
  | step (w w' : World) (c : Call) (range : Fields → Fields) (now : Time) :
      Reachable lib w → w.Alive → IsRange range → Call.run lib range now w c = some w' →
      Reachable lib w'

/-- A field set is redacted: every entry whose lower-cased key is on the
denylist holds the marker. -/
def Redacted (lib : Lib) (m : Fields) : Prop :=
  ∀ k v, (k, v) ∈ m → strings.ToLower lib k ∈ denylist → v = Value.str "[FILTERED]"

/-- A sequence of calls, one after the other, stopping at a panic. -/
def runCalls (lib : Lib) (range : Fields → Fields) (now : Time) :
    World → List Call → Option World
  | w, [] => some w
  | w, c :: cs =>
      match Call.run lib range now w c with
      | none => none
      | some w' => runCalls lib range now w' cs

/-- A sample program: a logger is made, a logger with a password is derived
from it, the level of that one is raised, and a logger with a token and a user
is derived from it in turn. -/
def sampleCalls : List Call :=
  [Call.newLogger 5 "" INFO,
   Call.withField 0 "Password" (Value.str "hunter2"),
   Call.setLevel 1 WARN,
   Call.withFields 1 [("token", Value.int 7), ("user", Value.str "u")]]

/-- The state after the sample program. -/
def sampleRun : World :=
  (runCalls Lib.plain id sampleTime World.empty sampleCalls).getD World.empty

/-- What a logger with the given colour flag, JSON flag and field set hands to
its `log.Logger` for a record: in JSON mode the JSON text and a newline, or the
text line when `json.Marshal` fails; in text mode the text line. -/
def Logger.rendered (lib : Lib) (range : Fields → Fields) (colored jsonMode : Bool)
    (m : Fields) (level : Level) (now : Time) (msg : String) : String :=
  if jsonMode = true then
    match lib.marshal (Logger.logEntry range m level now msg) with
    | none => Logger.textLine lib range colored m level now msg
    | some jsonData => jsonData ++ "\n"
  else Logger.textLine lib range colored m level now msg

/-! ## Theorems -/

set_option maxRecDepth 20000 in
theorem toNat_ofNat_small : ∀ n, n < 128 → (Char.ofNat n).toNat = n := by
  decide

theorem char_eq_of_toNat_eq {a b : Char} (h : a.toNat = b.toNat) : a = b := by
  rw [← Char.ofNat_toNat a, ← Char.ofNat_toNat b, h]

theorem char_eq_iff_toNat_eq (a b : Char) : a = b ↔ a.toNat = b.toNat :=
  ⟨fun h => by rw [h], char_eq_of_toNat_eq⟩

theorem toNat_toLower_capital (b : Char) (h1 : 65 ≤ b.toNat) (h2 : b.toNat ≤ 90) :
    b.toLower.toNat = b.toNat + 32 := by
  have : b.toLower = Char.ofNat (b.toNat + 32) := by
    simp [Char.toLower, h1, h2]
  rw [this]
  exact toNat_ofNat_small _ (by omega)

theorem toNat_ToUpper_ascii (lib : Lib) (a : Char) (h : a.toNat ≤ 127) :
    (unicode.ToUpper lib a).toNat =
      if 97 ≤ a.toNat ∧ a.toNat ≤ 122 then a.toNat - 32 else a.toNat := by
  unfold unicode.ToUpper
  rw [if_pos h]
  by_cases hc : 97 ≤ a.toNat ∧ a.toNat ≤ 122
  · have e1 : (97 : Nat) = 'a'.toNat := rfl
    have e2 : (122 : Nat) = 'z'.toNat := rfl
    rw [if_pos hc, ← e1, ← e2, if_pos hc]
    exact toNat_ofNat_small _ (by omega)
  · have e1 : (97 : Nat) = 'a'.toNat := rfl
    have e2 : (122 : Nat) = 'z'.toNat := rfl
    rw [if_neg hc, ← e1, ← e2, if_neg hc]

/-- Within ASCII, a rune has the upper-case form of a capital letter exactly
when it is that letter or its lower-case form. -/
theorem ToUpper_eq_capital_iff (lib : Lib) (a b : Char) (ha : a.toNat ≤ 127)
    (h1 : 65 ≤ b.toNat) (h2 : b.toNat ≤ 90) :
    unicode.ToUpper lib a = b ↔ (a = b ∨ a = b.toLower) := by
  rw [char_eq_iff_toNat_eq, char_eq_iff_toNat_eq a b, char_eq_iff_toNat_eq a b.toLower,
    toNat_ToUpper_ascii lib a ha, toNat_toLower_capital b h1 h2]
  split <;> omega

theorem ToUpper_capital (lib : Lib) (b : Char) (h1 : 65 ≤ b.toNat) (h2 : b.toNat ≤ 90) :
    unicode.ToUpper lib b = b :=
  (ToUpper_eq_capital_iff lib b b (by omega) h1 h2).2 (Or.inl rfl)

theorem forall₂_imp_of_mem {α β : Type} {R S : α → β → Prop} :
    ∀ (l : List α) (m : List β), (∀ a ∈ l, ∀ b ∈ m, R a b → S a b) →
      List.Forall₂ R l m → List.Forall₂ S l m := by
  intro l
  induction l with
  | nil => intro m _ h; cases h; exact List.Forall₂.nil
  | cons a l ih =>
    intro m h hr
    cases hr with
    | cons hab hrest =>
      exact List.Forall₂.cons (h a (by simp) _ (by simp) hab)
        (ih _ (fun x hx y hy => h x (by simp [hx]) y (by simp [hy])) hrest)

theorem forall₂_iff_of_mem {α β : Type} {R S : α → β → Prop} (l : List α) (m : List β)
    (h : ∀ a ∈ l, ∀ b ∈ m, (R a b ↔ S a b)) :
    List.Forall₂ R l m ↔ List.Forall₂ S l m :=
  ⟨forall₂_imp_of_mem l m (fun a ha b hb => (h a ha b hb).1),
    forall₂_imp_of_mem l m (fun a ha b hb => (h a ha b hb).2)⟩

theorem map_eq_iff_forall₂ {α β : Type} (f : α → β) :
    ∀ (l : List α) (m : List β), l.map f = m ↔ List.Forall₂ (fun a b => f a = b) l m := by
  intro l
  induction l with
  | nil => intro m; cases m <;> simp
  | cons a l ih =>
    intro m
    cases m with
    | nil => simp
    | cons b m => simp [ih m]

/-- The canonical names are made of ASCII capital letters. -/
theorem levelName_capital (level : Level) (h : level ∈ allLevels) :
    ∀ c ∈ (levelName level).data, 65 ≤ c.toNat ∧ c.toNat ≤ 90 := by
  simp only [allLevels, List.mem_cons, List.mem_singleton, List.not_mem_nil, or_false] at h
  rcases h with rfl | rfl | rfl | rfl | rfl <;> decide

theorem ToUpper_eq_iff_forall₂ (lib : Lib) (s name : String) :
    strings.ToUpper lib s = name ↔
      List.Forall₂ (fun a b => unicode.ToUpper lib a = b) s.data name.data := by
  rw [← map_eq_iff_forall₂]
  unfold strings.ToUpper
  constructor
  · intro h; rw [← h]
  · intro h; rw [h]

/-- Upper-casing the input gives a canonical name exactly when the two are
equal up to case. -/
theorem ToUpper_eq_levelName_iff (lib : Lib) (s : String) (level : Level)
    (h : level ∈ allLevels) :
    strings.ToUpper lib s = levelName level ↔ EqIgnoreCase lib s (levelName level) := by
  rw [ToUpper_eq_iff_forall₂]
  unfold EqIgnoreCase
  apply forall₂_iff_of_mem
  intro a _ b hb
  have hc := levelName_capital level h b hb
  rw [ToUpper_capital lib b hc.1 hc.2]

/-- On ASCII input, equality up to case with a canonical name is a change of
case of some of the letters of the name. -/
theorem EqIgnoreCase_levelName_iff (lib : Lib) (s : String) (hs : IsASCII s) (level : Level)
    (h : level ∈ allLevels) :
    EqIgnoreCase lib s (levelName level) ↔ IsCaseVariant s (levelName level) := by
  unfold EqIgnoreCase IsCaseVariant
  apply forall₂_iff_of_mem
  intro a ha b hb
  have hc := levelName_capital level h b hb
  rw [ToUpper_capital lib b hc.1 hc.2]
  exact ToUpper_eq_capital_iff lib a b (hs a ha) hc.1 hc.2

theorem ToUpper_of_variant (lib : Lib) (s : String) (level : Level) (h : level ∈ allLevels)
    (hs : IsCaseVariant s (levelName level)) : strings.ToUpper lib s = levelName level := by
  rw [ToUpper_eq_iff_forall₂]
  unfold IsCaseVariant at hs
  refine forall₂_imp_of_mem _ _ ?_ hs
  intro a _ b hb hab
  have hc := levelName_capital level h b hb
  have ha : a.toNat ≤ 127 := by
    rcases hab with rfl | rfl
    · omega
    · rw [toNat_toLower_capital b hc.1 hc.2]; omega
  exact (ToUpper_eq_capital_iff lib a b ha hc.1 hc.2).2 hab

theorem nameToLevel_eq :
    nameToLevel = [("DEBUG", DEBUG), ("INFO", INFO), ("WARN", WARN), ("ERROR", ERROR),
      ("FATAL", FATAL)] := by
  decide

theorem mem_allLevels (level : Level) :
    level ∈ allLevels ↔
      level = DEBUG ∨ level = INFO ∨ level = WARN ∨ level = ERROR ∨ level = FATAL := by
  simp [allLevels]

/-- ParseLevel in terms of the upper-cased input. -/
theorem ParseLevel_eq (lib : Lib) (s : String) :
    ParseLevel lib s =
      if strings.ToUpper lib s = "DEBUG" then (DEBUG, none)
      else if strings.ToUpper lib s = "INFO" then (INFO, none)
      else if strings.ToUpper lib s = "WARN" then (WARN, none)
      else if strings.ToUpper lib s = "ERROR" then (ERROR, none)
      else if strings.ToUpper lib s = "FATAL" then (FATAL, none)
      else (DEBUG, some ("未知的日志级别: " ++ s)) := by
  unfold ParseLevel
  rw [nameToLevel_eq]
  simp only [GoMap.get]
  by_cases h1 : "DEBUG" = strings.ToUpper lib s
  · simp [← h1]
  by_cases h2 : "INFO" = strings.ToUpper lib s
  · simp [← h2]
  by_cases h3 : "WARN" = strings.ToUpper lib s
  · simp [← h3]
  by_cases h4 : "ERROR" = strings.ToUpper lib s
  · simp [← h4]
  by_cases h5 : "FATAL" = strings.ToUpper lib s
  · simp [← h5]
  simp [h1, h2, h3, h4, h5, Ne.symm h1, Ne.symm h2, Ne.symm h3, Ne.symm h4, Ne.symm h5]

/-- C1: for each of the five levels, ParseLevel applied to the canonical name
`levelNames[level]` returns that level and a nil error; the name is an entry of
the table. -/
theorem C1_parse_canonical_name (lib : Lib) (level : Level) (h : level ∈ allLevels) :
    GoMap.get levelNames level = some (levelName level) ∧
      ParseLevel lib (levelName level) = (level, none) := by
  rw [mem_allLevels] at h
  rcases h with rfl | rfl | rfl | rfl | rfl <;> exact ⟨rfl, rfl⟩

theorem C1_parse_canonical_name_witness :
    WARN ∈ allLevels ∧ levelName WARN = "WARN" ∧
      ParseLevel Lib.plain (levelName WARN) = (WARN, none) :=
  ⟨by decide, rfl, (C1_parse_canonical_name Lib.plain WARN (by decide)).2⟩

theorem ParseLevel_of_upper (lib : Lib) (s : String) (level : Level) (h : level ∈ allLevels)
    (hs : strings.ToUpper lib s = levelName level) : ParseLevel lib s = (level, none) := by
  rw [ParseLevel_eq, hs]
  rw [mem_allLevels] at h
  rcases h with rfl | rfl | rfl | rfl | rfl <;> rfl

theorem ParseLevel_fails_iff (lib : Lib) (s : String) :
    (ParseLevel lib s).2 ≠ none ↔
      ∀ level ∈ allLevels, strings.ToUpper lib s ≠ levelName level := by
  constructor
  · intro hf level hl hu
    rw [ParseLevel_of_upper lib s level hl hu] at hf
    exact hf rfl
  · intro h
    have h0 := h DEBUG (by decide)
    have h1 := h INFO (by decide)
    have h2 := h WARN (by decide)
    have h3 := h ERROR (by decide)
    have h4 := h FATAL (by decide)
    have e0 : levelName DEBUG = "DEBUG" := rfl
    have e1 : levelName INFO = "INFO" := rfl
    have e2 : levelName WARN = "WARN" := rfl
    have e3 : levelName ERROR = "ERROR" := rfl
    have e4 : levelName FATAL = "FATAL" := rfl
    rw [e0] at h0; rw [e1] at h1; rw [e2] at h2; rw [e3] at h3; rw [e4] at h4
    rw [ParseLevel_eq, if_neg h0, if_neg h1, if_neg h2, if_neg h3, if_neg h4]
    simp

theorem ParseLevel_error_text (lib : Lib) (s : String) (h : (ParseLevel lib s).2 ≠ none) :
    ParseLevel lib s = (DEBUG, some ("未知的日志级别: " ++ s)) := by
  unfold ParseLevel at h ⊢
  cases hg : GoMap.get nameToLevel (strings.ToUpper lib s) with
  | none => rfl
  | some lvl => rw [hg] at h; exact absurd rfl h

/-- C2: ParseLevel fails (returns a non-nil error) exactly when the input is
equal up to case to none of the five canonical names; on ASCII input that is:
the input is no canonical name with the case of some letters changed. When it
fails, the error text ends in the input exactly as given, and the level
returned beside the error is Go's zero value. When the input matches the name of
a level, that level is returned with a nil error. On "bogus" it fails with an
error naming "bogus". -/
theorem C2_parse_fails_iff_no_match (lib : Lib) (s : String) :
    ((ParseLevel lib s).2 ≠ none ↔
        ∀ level ∈ allLevels, ¬ EqIgnoreCase lib s (levelName level)) ∧
      ((ParseLevel lib s).2 ≠ none →
        ParseLevel lib s = (DEBUG, some ("未知的日志级别: " ++ s))) ∧
      (∀ level ∈ allLevels, EqIgnoreCase lib s (levelName level) →
        ParseLevel lib s = (level, none)) ∧
      (IsASCII s →
        ((ParseLevel lib s).2 ≠ none ↔
          ∀ level ∈ allLevels, ¬ IsCaseVariant s (levelName level))) ∧
      ParseLevel lib "bogus" = (DEBUG, some "未知的日志级别: bogus") := by
  have key : (ParseLevel lib s).2 ≠ none ↔
      ∀ level ∈ allLevels, ¬ EqIgnoreCase lib s (levelName level) := by
    rw [ParseLevel_fails_iff]
    constructor
    · intro h level hl he
      exact h level hl ((ToUpper_eq_levelName_iff lib s level hl).2 he)
    · intro h level hl he
      exact h level hl ((ToUpper_eq_levelName_iff lib s level hl).1 he)
  refine ⟨key, ParseLevel_error_text lib s, ?_, ?_, rfl⟩
  · intro level hl he
    exact ParseLevel_of_upper lib s level hl ((ToUpper_eq_levelName_iff lib s level hl).2 he)
  · intro hs
    rw [key]
    constructor
    · intro h level hl hv
      exact h level hl ((EqIgnoreCase_levelName_iff lib s hs level hl).2 hv)
    · intro h level hl he
      exact h level hl ((EqIgnoreCase_levelName_iff lib s hs level hl).1 he)

/-- An instance of C2 on concrete inputs: "bogus" and "warning" are rejected
with the input quoted in the error, "wArN" is accepted. -/
theorem C2_parse_fails_iff_no_match_witness :
    IsASCII "warning" ∧
      (∀ level ∈ allLevels, ¬ IsCaseVariant "warning" (levelName level)) ∧
      ParseLevel Lib.plain "warning" = (DEBUG, some "未知的日志级别: warning") ∧
      ParseLevel Lib.plain "wArN" = (WARN, none) := by
  have hascii : IsASCII "warning" := by
    intro c hc
    simp only [List.mem_cons, List.mem_singleton, List.not_mem_nil, or_false] at hc
    rcases hc with rfl | rfl | rfl | rfl | rfl | rfl | rfl <;> decide
  have hC := C2_parse_fails_iff_no_match Lib.plain "warning"
  have hfail : (ParseLevel Lib.plain "warning").2 ≠ none := by decide
  exact ⟨hascii, (hC.2.2.2.1 hascii).1 hfail, hC.2.1 hfail, rfl⟩

/-- C3: ParseLevel does not look at the case of the letters. For each of the
five levels and every string obtained from its canonical name by putting some
of the letters in lower case, ParseLevel returns that level and a nil error. -/
theorem C3_parse_case_insensitive (lib : Lib) (level : Level) (h : level ∈ allLevels)
    (s : String) (hs : IsCaseVariant s (levelName level)) :
    ParseLevel lib s = (level, none) :=
  ParseLevel_of_upper lib s level h (ToUpper_of_variant lib s level h hs)

/-- The instances of C3 named in the specification: "info", "Info" and "iNFO"
all parse to INFO. -/
theorem C3_parse_case_insensitive_witness :
    ParseLevel Lib.plain "info" = (INFO, none) ∧
      ParseLevel Lib.plain "Info" = (INFO, none) ∧
      ParseLevel Lib.plain "iNFO" = (INFO, none) :=
  ⟨C3_parse_case_insensitive Lib.plain INFO (by decide) "info" (by
      unfold IsCaseVariant; decide),
   C3_parse_case_insensitive Lib.plain INFO (by decide) "Info" (by
      unfold IsCaseVariant; decide),
   C3_parse_case_insensitive Lib.plain INFO (by decide) "iNFO" (by
      unfold IsCaseVariant; decide)⟩

theorem contains_self (s : String) : Contains s s := List.infix_refl _

theorem contains_left (a b s : String) (h : Contains a s) : Contains (a ++ b) s := by
  unfold Contains at *
  rw [String.data_append]
  exact List.IsInfix.trans h (List.infix_append' [] a.data b.data)

theorem contains_right (a b s : String) (h : Contains b s) : Contains (a ++ b) s := by
  unfold Contains at *
  rw [String.data_append]
  exact List.IsInfix.trans h (List.suffix_append a.data b.data).isInfix

theorem getElem?_set_self_of_some {α : Type} (xs : List α) (i : Nat) (a b : α)
    (h : xs[i]? = some a) : (xs.set i b)[i]? = some b := by
  have hi : i < xs.length := by
    by_contra hc
    rw [List.getElem?_eq_none (by omega)] at h
    exact Option.noConfusion h
  simp [List.getElem?_set, hi]

/-- The text line shows the bracketed level name and the message. -/
theorem textLine_contains (lib : Lib) (range : Fields → Fields) (colored : Bool) (m : Fields)
    (level : Level) (now : Time) (msg : String) :
    Contains (Logger.textLine lib range colored m level now msg) ("[" ++ levelName level ++ "]") ∧
      Contains (Logger.textLine lib range colored m level now msg) msg := by
  unfold Logger.textLine fmt.padRight
  cases colored
  · simp only [Bool.false_eq_true, if_false]
    constructor
    · iterate 7 apply contains_left
      exact contains_self _
    · iterate 2 apply contains_left
      apply contains_right
      exact contains_self _
  · simp only [if_true]
    constructor
    · iterate 7 apply contains_left
      apply contains_right
      apply contains_left
      exact contains_self _
    · iterate 2 apply contains_left
      apply contains_right
      exact contains_self _

theorem line_contains (ad : StdLogger) (s t : String) (h : Contains s t) :
    Contains (ad.line s) t := by
  unfold StdLogger.line
  apply contains_left
  apply contains_right
  exact h


theorem log_text (lib : Lib) (range : Fields → Fields) (now : Time) (w : World) (l : Nat)
    (lg : Logger) (ad : StdLogger) (level : Level) (format : String) (v : List Value)
    (hl : w.loggers[l]? = some lg) (ha : w.stdLoggers[lg.logger]? = some ad)
    (hle : lg.level ≤ level) (hj : lg.jsonMode = false) :
    Logger.log lib range now w l level format v =
      some (w.logged ad.out
        (ad.line (Logger.textLine lib range lg.colored (w.mapAt lg.fields) level now
          (fmt.Sprintf lib format v))) level) := by
  have hnot : ¬ level < lg.level := not_lt.mpr hle
  unfold Logger.log World.logged
  simp only [hl, if_neg hnot, hj, Bool.false_eq_true, if_false, Logger.writeTextLog,
    StdLogger.Printf, StdLogger.Output, ha]
  split <;> rfl

/-- A call that passes the filter writes one record. -/
theorem log_writes_one (lib : Lib) (range : Fields → Fields) (now : Time) (w : World) (l : Nat)
    (lg : Logger) (ad : StdLogger) (level : Level) (format : String) (v : List Value)
    (hl : w.loggers[l]? = some lg) (ha : w.stdLoggers[lg.logger]? = some ad)
    (hle : lg.level ≤ level) :
    ∃ data, Logger.log lib range now w l level format v = some (w.logged ad.out data level) := by
  cases hj : lg.jsonMode with
  | false => exact ⟨_, log_text lib range now w l lg ad level format v hl ha hle hj⟩
  | true =>
    have hnot : ¬ level < lg.level := not_lt.mpr hle
    unfold Logger.log World.logged
    simp only [hl, if_neg hnot, hj, if_true, Logger.writeJSONLog]
    cases hm : lib.marshal (Logger.logEntry range (w.mapAt lg.fields) level now
        (fmt.Sprintf lib format v)) with
    | none =>
      simp only [Logger.writeTextLog, StdLogger.Printf, StdLogger.Output, ha]
      exact ⟨_, by split <;> rfl⟩
    | some js =>
      simp only [StdLogger.Println, StdLogger.Output, ha]
      exact ⟨_, by split <;> rfl⟩

theorem log_filtered (lib : Lib) (range : Fields → Fields) (now : Time) (w : World) (l : Nat)
    (lg : Logger) (level : Level) (format : String) (v : List Value)
    (hl : w.loggers[l]? = some lg) (hlt : level < lg.level) :
    Logger.log lib range now w l level format v = some w := by
  unfold Logger.log
  simp only [hl, if_pos hlt]


/-- C4: level filtering. On a logger whose level is `lg.level`, a call at level
`L` below it returns the state as it was, so nothing at all is written; a call
at a level `L` at or above it appends exactly one write on the logger's sink to
the trace (followed by the exit when `L` is FATAL) and changes nothing else.
After SetLevel(WARN), Info("x") leaves the state as it was and, in text mode,
Warn("x") writes one line that contains "[WARN" and "x". -/
theorem C4_level_filter (lib : Lib) (range : Fields → Fields) (now : Time) (w : World) (l : Nat)
    (lg : Logger) (ad : StdLogger) (hl : w.loggers[l]? = some lg)
    (ha : w.stdLoggers[lg.logger]? = some ad) (L : Level) (format : String) (v : List Value) :
    (L < lg.level → Logger.log lib range now w l L format v = some w) ∧
      (lg.level ≤ L →
        ∃ data, Logger.log lib range now w l L format v = some (w.logged ad.out data L)) ∧
      (∃ w1, Logger.SetLevel w l WARN = some w1 ∧ w1.trace = w.trace ∧
        Logger.Info lib range now w1 l "x" [] = some w1 ∧
        (lg.jsonMode = false →
          ∃ data, Logger.Warn lib range now w1 l "x" [] =
              some (w1.emit (Event.write ad.out data)) ∧
            Contains data "[WARN" ∧ Contains data "x")) := by
  refine ⟨log_filtered lib range now w l lg L format v hl,
    log_writes_one lib range now w l lg ad L format v hl ha, ?_⟩
  have hl1 : (w.loggers.set l { lg with level := WARN })[l]? = some { lg with level := WARN } :=
    getElem?_set_self_of_some _ _ _ _ hl
  refine ⟨{ w with loggers := w.loggers.set l { lg with level := WARN } }, ?_, rfl, ?_, ?_⟩
  · unfold Logger.SetLevel
    simp only [hl]
  · exact log_filtered lib range now _ l _ INFO "x" [] hl1 (by show INFO < WARN; decide)
  · intro hj
    have h := log_text lib range now { w with loggers := w.loggers.set l { lg with level := WARN } }
      l { lg with level := WARN } ad WARN "x" [] hl1 ha (le_refl _) hj
    refine ⟨_, h, ?_, ?_⟩
    · apply line_contains
      have hc := (textLine_contains lib range lg.colored
        (World.mapAt { w with loggers := w.loggers.set l { lg with level := WARN } } lg.fields)
        WARN now (fmt.Sprintf lib "x" [])).1
      have e : ("[" ++ levelName WARN ++ "]") = "[WARN" ++ "]" := by decide
      rw [e] at hc
      exact List.IsInfix.trans (List.infix_append' [] "[WARN".data "]".data) hc
    · apply line_contains
      exact (textLine_contains lib range lg.colored _ WARN now (fmt.Sprintf lib "x" [])).2


theorem C4_level_filter_witness :
    Logger.log Lib.plain id sampleTime sampleWorld 0 DEBUG "x" [] = some sampleWorld ∧
      (∃ data, Logger.log Lib.plain id sampleTime sampleWorld 0 ERROR "x" [] =
        some (sampleWorld.logged 5 data ERROR)) :=
  ⟨(C4_level_filter Lib.plain id sampleTime sampleWorld 0
      { level := INFO, output := 5, pfx := "", logger := 0, colored := true, fields := 0,
        jsonMode := false }
      { out := 5, pfx := "" } rfl rfl DEBUG "x" []).1 (by decide),
   (C4_level_filter Lib.plain id sampleTime sampleWorld 0
      { level := INFO, output := 5, pfx := "", logger := 0, colored := true, fields := 0,
        jsonMode := false }
      { out := 5, pfx := "" } rfl rfl ERROR "x" []).2.1 (by decide)⟩

namespace GoMap

theorem get_set {κ ν : Type} [DecidableEq κ] (m : List (κ × ν)) (k k' : κ) (v : ν) :
    get (set m k v) k' = if k = k' then some v else get m k' := by
  induction m with
  | nil => simp [set, get]
  | cons e m ih =>
    obtain ⟨a, b⟩ := e
    by_cases h : a = k
    · subst h
      by_cases h' : a = k' <;> simp [set, get, h']
    · by_cases h' : a = k'
      · subst h'
        simp [set, get, h, Ne.symm h]
      · simp [set, get, h, h', ih]

theorem get_set_self {κ ν : Type} [DecidableEq κ] (m : List (κ × ν)) (k : κ) (v : ν) : get (set m k v) k = some v := by
  rw [get_set, if_pos rfl]

theorem get_eq_none_iff {κ ν : Type} [DecidableEq κ] (m : List (κ × ν)) (k : κ) : get m k = none ↔ k ∉ keys m := by
  induction m with
  | nil => simp [get, keys]
  | cons e m ih =>
    obtain ⟨a, b⟩ := e
    by_cases h : a = k
    · simp [get, keys, h]
    · simp only [get, if_neg h, ih, keys, List.map_cons, List.mem_cons, not_or]
      constructor
      · intro hk; exact ⟨Ne.symm h, hk⟩
      · intro hk; exact hk.2

theorem mem_keys_iff {κ ν : Type} [DecidableEq κ] (m : List (κ × ν)) (k : κ) : k ∈ keys m ↔ ∃ v, get m k = some v := by
  rw [← not_iff_not, ← get_eq_none_iff]
  cases get m k <;> simp

theorem keys_set {κ ν : Type} [DecidableEq κ] (m : List (κ × ν)) (k : κ) (v : ν) :
    keys (set m k v) = if k ∈ keys m then keys m else keys m ++ [k] := by
  induction m with
  | nil => simp [set, keys]
  | cons e m ih =>
    obtain ⟨a, b⟩ := e
    by_cases h : a = k
    · subst h; simp [set, keys]
    · have ih' : List.map Prod.fst (set m k v) =
          if k ∈ List.map Prod.fst m then List.map Prod.fst m else List.map Prod.fst m ++ [k] := ih
      simp only [set, if_neg h, keys, List.map_cons, List.mem_cons, ih', Ne.symm h, false_or]
      split <;> simp

theorem WF_set {κ ν : Type} [DecidableEq κ] (m : List (κ × ν)) (k : κ) (v : ν) (h : WF m) : WF (set m k v) := by
  unfold WF at *
  rw [keys_set]
  split
  · exact h
  · rename_i hk
    rw [List.nodup_append]
    refine ⟨h, List.nodup_singleton k, ?_⟩
    intro a ha hb
    simp at hb
    subst hb
    exact hk ha

/-- In a map with one entry per key, the lookup finds exactly the entries. -/
theorem get_eq_some_iff {κ ν : Type} [DecidableEq κ] (m : List (κ × ν)) (h : WF m) (k : κ) (v : ν) :
    get m k = some v ↔ (k, v) ∈ m := by
  induction m with
  | nil => simp [get]
  | cons e m ih =>
    obtain ⟨a, b⟩ := e
    have hnd : a ∉ keys m ∧ WF m := by
      unfold WF keys at h
      simpa [keys, WF] using h
    by_cases hk : a = k
    · subst hk
      simp only [get, if_true, Option.some.injEq, List.mem_cons, Prod.mk.injEq, true_and]
      constructor
      · intro hb; exact Or.inl hb.symm
      · intro hb
        rcases hb with hb | hb
        · exact hb.symm
        · exact absurd (List.mem_map_of_mem Prod.fst hb) hnd.1
    · simp only [get, if_neg hk, ih hnd.2, List.mem_cons, Prod.mk.injEq]
      constructor
      · intro hm; exact Or.inr hm
      · intro hm
        rcases hm with hm | hm
        · exact absurd hm.1.symm hk
        · exact hm

/-- The lookup does not depend on the order of the entries. -/
theorem get_perm {κ ν : Type} [DecidableEq κ] (es m : List (κ × ν)) (h : WF m) (hp : es.Perm m) (k : κ) :
    get es k = get m k := by
  have hes : WF es := by
    unfold WF keys at *
    exact (hp.map Prod.fst).nodup_iff.2 h
  apply Option.ext
  intro v
  simp only [Option.mem_def]
  rw [get_eq_some_iff es hes, get_eq_some_iff m h]
  exact hp.mem_iff

/-- Assigning the entries of a map one by one: a key of the map gets its entry,
every other key keeps what it had. -/
theorem get_foldl_set {κ ν : Type} [DecidableEq κ] (es : List (κ × ν)) (h : WF es) (init : List (κ × ν)) (k : κ) :
    get (es.foldl (fun acc e => set acc e.1 e.2) init) k =
      match get es k with
      | some v => some v
      | none => get init k := by
  induction es generalizing init with
  | nil => simp [get]
  | cons e es ih =>
    obtain ⟨a, b⟩ := e
    have hnd : a ∉ keys es ∧ WF es := by
      unfold WF keys at h
      simpa [keys, WF] using h
    rw [List.foldl_cons, ih hnd.2]
    by_cases hk : a = k
    · subst hk
      have hn : get es a = none := (get_eq_none_iff es a).2 hnd.1
      simp [get, hn, get_set_self]
    · simp only [get, if_neg hk, get_set, if_neg hk]

theorem WF_foldl_set {κ ν : Type} [DecidableEq κ] (es init : List (κ × ν)) (h : WF init) :
    WF (es.foldl (fun acc e => set acc e.1 e.2) init) := by
  induction es generalizing init with
  | nil => exact h
  | cons e es ih => exact ih _ (WF_set _ _ _ h)

end GoMap

theorem sensitive_iff (s : String) :
    (GoMap.get sensitiveKeys s).getD false = true ↔ s ∈ denylist := by
  unfold sensitiveKeys denylist
  simp only [GoMap.get]
  by_cases h1 : "password" = s
  · simp [← h1]
  by_cases h2 : "token" = s
  · simp [← h2]
  by_cases h3 : "credit_card" = s
  · simp [← h3]
  by_cases h4 : "secret" = s
  · simp [← h4]
  simp [h1, h2, h3, h4, Ne.symm h1, Ne.symm h2, Ne.symm h3, Ne.symm h4]

theorem filter_sensitive (lib : Lib) (key : String) (v : Value)
    (h : strings.ToLower lib key ∈ denylist) : filterSensitiveData lib key v = marker := by
  unfold filterSensitiveData
  rw [if_pos ((sensitive_iff _).2 h)]
  rfl

theorem filter_other (lib : Lib) (key : String) (v : Value)
    (h : strings.ToLower lib key ∉ denylist) : filterSensitiveData lib key v = v := by
  unfold filterSensitiveData
  rw [if_neg (fun hc => h ((sensitive_iff _).1 hc))]

theorem range_singleton (range : Fields → Fields) (hr : IsRange range) (e : String × Value) :
    range [e] = [e] :=
  List.perm_singleton.1 (hr [e])

/-- The result of `WithFields` on an allocated logger. -/
theorem WithFields_eq (lib : Lib) (range : Fields → Fields) (w : World) (l : Nat) (lg : Logger)
    (fields : Fields) (hl : w.loggers[l]? = some lg) :
    Logger.WithFields lib range w l fields =
      some ({ w with
          loggers := w.loggers ++ [{ lg with fields := w.maps.length }]
          maps := w.maps ++
            [Logger.addFields lib range fields
              (Logger.copyFields range (w.mapAt lg.fields) [])] },
        w.loggers.length) := by
  unfold Logger.WithFields
  simp only [hl]

theorem mapAt_append_new (w : World) (ls : List Logger) (m : Fields) :
    World.mapAt { w with loggers := ls, maps := w.maps ++ [m] } w.maps.length = m := by
  simp [World.mapAt]

theorem mapAt_append_old (w : World) (ls : List Logger) (m : Fields) (a : Nat)
    (ha : a < w.maps.length) :
    World.mapAt { w with loggers := ls, maps := w.maps ++ [m] } a = w.mapAt a := by
  simp [World.mapAt, List.getElem?_append_left ha]

theorem loggers_append_new (ls : List Logger) (lg : Logger) :
    (ls ++ [lg])[ls.length]? = some lg := by
  simp

theorem loggers_append_old (ls : List Logger) (lg lg' : Logger) (l : Nat)
    (hl : ls[l]? = some lg) : (ls ++ [lg'])[l]? = some lg := by
  have hi : l < ls.length := by
    by_contra hc
    rw [List.getElem?_eq_none (by omega)] at hl
    exact Option.noConfusion hl
  rw [List.getElem?_append_left hi, hl]

/-- C5: redaction at insertion. For every allocated logger, every key whose
lower-cased form is "password", "token", "credit_card" or "secret", and every
value (nil included), WithField returns a logger whose map holds exactly the
string "[FILTERED]" under the key as given. -/
theorem C5_redaction_at_insertion (lib : Lib) (range : Fields → Fields) (hr : IsRange range)
    (w : World) (l : Nat) (lg : Logger) (hl : w.loggers[l]? = some lg) (key : String)
    (v : Value) (hk : strings.ToLower lib key ∈ denylist) :
    ∃ w' l' lg', Logger.WithField lib range w l key v = some (w', l') ∧
      w'.loggers[l']? = some lg' ∧
      GoMap.get (w'.mapAt lg'.fields) key = some (Value.str "[FILTERED]") := by
  unfold Logger.WithField
  rw [WithFields_eq lib range w l lg _ hl]
  refine ⟨_, _, _, rfl, loggers_append_new _ _, ?_⟩
  simp only []
  rw [mapAt_append_new]
  unfold Logger.addFields
  rw [range_singleton range hr]
  simp only [List.foldl_cons, List.foldl_nil, filter_sensitive lib key v hk]
  rw [if_pos (by decide)]
  exact GoMap.get_set_self _ _ _

theorem C5_redaction_at_insertion_witness :
    strings.ToLower Lib.plain "PassWord" ∈ denylist ∧
      ∃ w' l' lg', Logger.WithField Lib.plain id sampleWorld 0 "PassWord" Value.nil =
          some (w', l') ∧
        w'.loggers[l']? = some lg' ∧
        GoMap.get (w'.mapAt lg'.fields) "PassWord" = some (Value.str "[FILTERED]") :=
  ⟨by decide,
    C5_redaction_at_insertion Lib.plain id (fun _ => List.Perm.refl _) sampleWorld 0 _ rfl
      "PassWord" Value.nil (by decide)⟩

/-- What a call of `log` adds to the trace depends on the logger, its map, its
`log.Logger` and the trace so far, and on nothing else of the state. -/
theorem log_trace_congr (lib : Lib) (range : Fields → Fields) (now : Time) (w1 w2 : World)
    (l : Nat) (lg : Logger) (level : Level) (format : String) (v : List Value)
    (h1 : w1.loggers[l]? = some lg) (h2 : w2.loggers[l]? = some lg)
    (hm : w1.mapAt lg.fields = w2.mapAt lg.fields)
    (hs : w1.stdLoggers[lg.logger]? = w2.stdLoggers[lg.logger]?)
    (ht : w1.trace = w2.trace) :
    (Logger.log lib range now w1 l level format v).map World.trace =
      (Logger.log lib range now w2 l level format v).map World.trace := by
  unfold Logger.log
  simp only [h1, h2]
  by_cases hlt : level < lg.level
  · simp only [if_pos hlt, Option.map_some', ht]
  · simp only [if_neg hlt, Logger.writeJSONLog, Logger.writeTextLog, StdLogger.Printf,
      StdLogger.Println, StdLogger.Output, hm, hs]
    cases w2.stdLoggers[lg.logger]? with
    | none =>
      cases lg.jsonMode
      · simp
      · simp
    | some ad =>
      cases lg.jsonMode
      · simp only [Bool.false_eq_true, if_false]
        split <;> simp [World.emit, ht]
      · simp only [if_true]
        cases lib.marshal (Logger.logEntry range (w2.mapAt lg.fields) level now
          (fmt.Sprintf lib format v))
        · simp only []
          split <;> simp [World.emit, ht]
        · simp only []
          split <;> simp [World.emit, ht]

/-- Deriving a logger leaves everything that was allocated as it was. -/
theorem WithFields_frame (lib : Lib) (range : Fields → Fields) (w : World) (l : Nat)
    (lg : Logger) (fields : Fields) (hl : w.loggers[l]? = some lg) :
    ∃ w' lg', Logger.WithFields lib range w l fields = some (w', w.loggers.length) ∧
      w'.loggers[w.loggers.length]? = some lg' ∧
      lg'.fields = w.maps.length ∧ w'.maps.length = w.maps.length + 1 ∧
      (∀ (i : Nat) (x : Logger), w.loggers[i]? = some x → w'.loggers[i]? = some x) ∧
      (∀ a, a < w.maps.length → w'.mapAt a = w.mapAt a) ∧
      w'.stdLoggers = w.stdLoggers ∧ w'.trace = w.trace := by
  rw [WithFields_eq lib range w l lg fields hl]
  refine ⟨_, _, rfl, loggers_append_new _ _, rfl, by simp, ?_, ?_, rfl, rfl⟩
  · intro i x hx
    exact loggers_append_old _ _ _ _ hx
  · intro a ha
    exact mapAt_append_old w _ _ a ha

/-- C7: field-set isolation. Deriving B from an allocated logger A by
WithFields (WithField is WithFields on a one-entry map) returns a new logger
with a new map and leaves A and the map of A exactly as they were, so every
later call on A adds to the trace what it would have added without the
derivation. Deriving C from B by WithField in turn leaves B and the map of B
as they were, and A as well. -/
theorem C7_field_set_isolation (lib : Lib) (range : Fields → Fields) (w : World) (a : Nat)
    (lgA : Logger) (hA : w.loggers[a]? = some lgA) (hfA : lgA.fields < w.maps.length)
    (m : Fields) :
    ∃ w1 b lgB, Logger.WithFields lib range w a m = some (w1, b) ∧
      w1.loggers[b]? = some lgB ∧ b ≠ a ∧ lgB.fields ≠ lgA.fields ∧
      w1.loggers[a]? = some lgA ∧ w1.mapAt lgA.fields = w.mapAt lgA.fields ∧
      (∀ range' now level format v,
        (Logger.log lib range' now w1 a level format v).map World.trace =
          (Logger.log lib range' now w a level format v).map World.trace) ∧
      (∀ k2 v2, ∃ w2 c lgC, Logger.WithField lib range w1 b k2 v2 = some (w2, c) ∧
        w2.loggers[c]? = some lgC ∧ c ≠ b ∧ lgC.fields ≠ lgB.fields ∧
        w2.loggers[b]? = some lgB ∧ w2.mapAt lgB.fields = w1.mapAt lgB.fields ∧
        w2.loggers[a]? = some lgA ∧ w2.mapAt lgA.fields = w.mapAt lgA.fields ∧
        (∀ range' now level format v,
          (Logger.log lib range' now w2 b level format v).map World.trace =
            (Logger.log lib range' now w1 b level format v).map World.trace)) := by
  have hlen : a < w.loggers.length := by
    by_contra hc
    rw [List.getElem?_eq_none (by omega)] at hA
    exact Option.noConfusion hA
  obtain ⟨w1, lgB, h1, hB, hfB, hml, hold, hmaps, hstd, htr⟩ :=
    WithFields_frame lib range w a lgA m hA
  refine ⟨w1, w.loggers.length, lgB, h1, hB, by omega, by omega, hold a lgA hA,
    hmaps _ hfA, ?_, ?_⟩
  · intro range' now level format v
    exact log_trace_congr lib range' now w1 w a lgA level format v (hold a lgA hA) hA
      (hmaps _ hfA) (by rw [hstd]) htr
  · intro k2 v2
    obtain ⟨w2, lgC, h2, hC, hfC, _, hold2, hmaps2, hstd2, htr2⟩ :=
      WithFields_frame lib range w1 w.loggers.length lgB [(k2, v2)] hB
    have hlen1 : w.loggers.length < w1.loggers.length := by
      by_contra hc
      rw [List.getElem?_eq_none (by omega)] at hB
      exact Option.noConfusion hB
    have hfB1 : lgB.fields < w1.maps.length := by omega
    have hfA1 : lgA.fields < w1.maps.length := by omega
    refine ⟨w2, w1.loggers.length, lgC, h2, hC, by omega, by omega, hold2 _ lgB hB,
      hmaps2 _ hfB1, hold2 a lgA (hold a lgA hA), ?_, ?_⟩
    · rw [hmaps2 _ hfA1, hmaps _ hfA]
    · intro range' now level format v
      exact log_trace_congr lib range' now w2 w1 _ lgB level format v (hold2 _ lgB hB) hB
        (hmaps2 _ hfB1) (by rw [hstd2]) htr2

theorem C7_field_set_isolation_witness :
    ∃ w1 b lgB, Logger.WithFields Lib.plain id sampleWorld 0 [("k", Value.int 1)] =
        some (w1, b) ∧
      w1.loggers[b]? = some lgB ∧ b ≠ 0 ∧ lgB.fields ≠ 0 ∧ w1.mapAt 0 = sampleWorld.mapAt 0 := by
  obtain ⟨w1, b, lgB, h1, h2, h3, h4, _, h6, _⟩ :=
    C7_field_set_isolation Lib.plain id sampleWorld 0
      { level := INFO, output := 5, pfx := "", logger := 0, colored := true, fields := 0,
        jsonMode := false } rfl (by decide) [("k", Value.int 1)]
  exact ⟨w1, b, lgB, h1, h2, h3, h4, h6⟩

theorem WF_of_perm {es m : Fields} (h : GoMap.WF m) (hp : es.Perm m) : GoMap.WF es := by
  unfold GoMap.WF GoMap.keys at *
  exact (hp.map Prod.fst).nodup_iff.2 h

/-- The first loop of WithFields copies the parent's map. -/
theorem get_copyFields (range : Fields → Fields) (hr : IsRange range) (parent : Fields)
    (hP : GoMap.WF parent) (k : String) :
    GoMap.get (Logger.copyFields range parent []) k = GoMap.get parent k := by
  unfold Logger.copyFields
  rw [GoMap.get_foldl_set _ (WF_of_perm hP (hr parent)), GoMap.get_perm _ _ hP (hr parent)]
  cases GoMap.get parent k <;> rfl

theorem get_foldl_filter (lib : Lib) (es : Fields) (h : GoMap.WF es) (acc : Fields)
    (k : String) :
    GoMap.get (es.foldl
      (fun acc e =>
        if filterSensitiveData lib e.1 e.2 ≠ Value.nil then
          GoMap.set acc e.1 (filterSensitiveData lib e.1 e.2)
        else acc) acc) k =
      match GoMap.get es k with
      | some v =>
          if filterSensitiveData lib k v ≠ Value.nil then some (filterSensitiveData lib k v)
          else GoMap.get acc k
      | none => GoMap.get acc k := by
  induction es generalizing acc with
  | nil => simp [GoMap.get]
  | cons e es ih =>
    obtain ⟨a, b⟩ := e
    have hnd : a ∉ GoMap.keys es ∧ GoMap.WF es := by
      unfold GoMap.WF GoMap.keys at h
      simpa [GoMap.keys, GoMap.WF] using h
    rw [List.foldl_cons, ih hnd.2]
    by_cases hk : a = k
    · subst hk
      have hn : GoMap.get es a = none := (GoMap.get_eq_none_iff es a).2 hnd.1
      simp only [hn, GoMap.get, if_true]
      by_cases hf : filterSensitiveData lib a b ≠ Value.nil
      · simp only [if_pos hf, GoMap.get_set_self]
      · simp only [if_neg hf]
    · simp only [GoMap.get, if_neg hk]
      by_cases hf : filterSensitiveData lib a b ≠ Value.nil
      · simp only [if_pos hf, GoMap.get_set, if_neg hk]
      · simp only [if_neg hf]

/-- The second loop of WithFields. -/
theorem get_addFields (lib : Lib) (range : Fields → Fields) (hr : IsRange range)
    (fields : Fields) (hE : GoMap.WF fields) (acc : Fields) (k : String) :
    GoMap.get (Logger.addFields lib range fields acc) k =
      match GoMap.get fields k with
      | some v =>
          if filterSensitiveData lib k v ≠ Value.nil then some (filterSensitiveData lib k v)
          else GoMap.get acc k
      | none => GoMap.get acc k := by
  unfold Logger.addFields
  rw [get_foldl_filter lib _ (WF_of_perm hE (hr fields)), GoMap.get_perm _ _ hE (hr fields)]

theorem WF_foldl_filter (lib : Lib) (es acc : Fields) (h : GoMap.WF acc) :
    GoMap.WF (es.foldl
      (fun acc e =>
        if filterSensitiveData lib e.1 e.2 ≠ Value.nil then
          GoMap.set acc e.1 (filterSensitiveData lib e.1 e.2)
        else acc) acc) := by
  induction es generalizing acc with
  | nil => exact h
  | cons e es ih =>
    rw [List.foldl_cons]
    apply ih
    split
    · exact GoMap.WF_set _ _ _ h
    · exact h

theorem WF_derived (lib : Lib) (range : Fields → Fields) (fields parent : Fields) :
    GoMap.WF (Logger.addFields lib range fields (Logger.copyFields range parent [])) := by
  unfold Logger.addFields Logger.copyFields
  apply WF_foldl_filter
  apply GoMap.WF_foldl_set
  exact List.nodup_nil

theorem filter_eq (lib : Lib) (key : String) (v : Value) :
    filterSensitiveData lib key v =
      if strings.ToLower lib key ∈ denylist then marker else v := by
  by_cases h : strings.ToLower lib key ∈ denylist
  · rw [if_pos h, filter_sensitive lib key v h]
  · rw [if_neg h, filter_other lib key v h]

theorem filter_eq_nil_iff (lib : Lib) (key : String) (v : Value) :
    filterSensitiveData lib key v = Value.nil ↔
      (v = Value.nil ∧ strings.ToLower lib key ∉ denylist) := by
  rw [filter_eq]
  by_cases h : strings.ToLower lib key ∈ denylist
  · simp [h, marker]
  · simp [h]

/-- C8 fails as stated: WithField("user", nil) returns a logger whose map has
no entry for "user", and WithFields with the entry "user": nil on a logger that
holds "user": "alice" leaves "alice" in place. -/
theorem C8_nil_value_not_inserted :
    (∃ w1 b lgB, Logger.WithField Lib.plain id sampleWorld 0 "user" Value.nil = some (w1, b) ∧
        w1.loggers[b]? = some lgB ∧ GoMap.get (w1.mapAt lgB.fields) "user" = none) ∧
      (∃ w1 b w2 c lgC,
        Logger.WithField Lib.plain id sampleWorld 0 "user" (Value.str "alice") = some (w1, b) ∧
        Logger.WithFields Lib.plain id w1 b [("user", Value.nil)] = some (w2, c) ∧
        w2.loggers[c]? = some lgC ∧
        GoMap.get (w2.mapAt lgC.fields) "user" = some (Value.str "alice")) :=
  ⟨⟨_, _, _, rfl, rfl, rfl⟩, ⟨_, _, _, _, _, rfl, rfl, rfl, rfl⟩⟩

/-- C8, amended: copy-then-apply with the nil guard. The map of the logger
derived by WithFields from a parent map P and entries E holds, under a key of E
whose filtered value is not nil, that filtered value (the entry's value, or the
marker when the key is on the denylist), overriding P; under every other key it
holds what P holds. Its keys are the keys of P together with the keys of E
whose filtered value is not nil. WithField(key, v) inserts an entry for key
whenever v is not nil or key is on the denylist. -/
theorem C8_copy_then_apply (lib : Lib) (range : Fields → Fields) (hr : IsRange range)
    (w : World) (l : Nat) (lg : Logger) (hl : w.loggers[l]? = some lg) (E : Fields)
    (hE : GoMap.WF E) (hP : GoMap.WF (w.mapAt lg.fields)) :
    (∃ w1 b lgB, Logger.WithFields lib range w l E = some (w1, b) ∧
      w1.loggers[b]? = some lgB ∧
      (∀ k, GoMap.get (w1.mapAt lgB.fields) k =
        match GoMap.get E k with
        | some v =>
            if filterSensitiveData lib k v ≠ Value.nil then some (filterSensitiveData lib k v)
            else GoMap.get (w.mapAt lg.fields) k
        | none => GoMap.get (w.mapAt lg.fields) k) ∧
      (∀ k, k ∈ GoMap.keys (w1.mapAt lgB.fields) ↔
        (k ∈ GoMap.keys (w.mapAt lg.fields) ∨
          ∃ v, GoMap.get E k = some v ∧ filterSensitiveData lib k v ≠ Value.nil)) ∧
      GoMap.WF (w1.mapAt lgB.fields)) ∧
    (∀ k v, filterSensitiveData lib k v =
        if strings.ToLower lib k ∈ denylist then Value.str "[FILTERED]" else v) ∧
    (∀ key v, (v ≠ Value.nil ∨ strings.ToLower lib key ∈ denylist) →
      ∃ w1 b lgB, Logger.WithField lib range w l key v = some (w1, b) ∧
        w1.loggers[b]? = some lgB ∧
        GoMap.get (w1.mapAt lgB.fields) key = some (filterSensitiveData lib key v)) := by
  have hget : ∀ (F : Fields), GoMap.WF F → ∀ k,
      GoMap.get (Logger.addFields lib range F (Logger.copyFields range (w.mapAt lg.fields) [])) k =
        match GoMap.get F k with
        | some v =>
            if filterSensitiveData lib k v ≠ Value.nil then some (filterSensitiveData lib k v)
            else GoMap.get (w.mapAt lg.fields) k
        | none => GoMap.get (w.mapAt lg.fields) k := by
    intro F hF k
    have h := get_addFields lib range hr F hF (Logger.copyFields range (w.mapAt lg.fields) []) k
    rw [get_copyFields range hr _ hP] at h
    exact h
  refine ⟨?_, fun k v => filter_eq lib k v, ?_⟩
  · rw [WithFields_eq lib range w l lg E hl]
    refine ⟨_, _, _, rfl, loggers_append_new _ _, ?_, ?_, ?_⟩
    · intro k
      simp only []
      rw [mapAt_append_new]
      exact hget E hE k
    · intro k
      simp only []
      rw [mapAt_append_new, GoMap.mem_keys_iff, GoMap.mem_keys_iff, hget E hE k]
      cases hEk : GoMap.get E k with
      | none => simp
      | some v =>
        by_cases hf : filterSensitiveData lib k v ≠ Value.nil
        · simp [hf]
        · simp [hf]
    · simp only []
      rw [mapAt_append_new]
      exact WF_derived lib range E _
  · intro key v hv
    have hne : filterSensitiveData lib key v ≠ Value.nil := by
      intro hc
      rw [filter_eq_nil_iff] at hc
      rcases hv with hv | hv
      · exact hv hc.1
      · exact hc.2 hv
    unfold Logger.WithField
    rw [WithFields_eq lib range w l lg _ hl]
    refine ⟨_, _, _, rfl, loggers_append_new _ _, ?_⟩
    simp only []
    rw [mapAt_append_new, hget [(key, v)] (by simp [GoMap.WF, GoMap.keys]) key]
    simp [GoMap.get, hne]

theorem C8_copy_then_apply_witness :
    ∃ w1 b lgB,
      Logger.WithFields Lib.plain id sampleWorld 0
          [("password", Value.str "p"), ("n", Value.nil), ("k", Value.int 1)] = some (w1, b) ∧
        w1.loggers[b]? = some lgB ∧
        (∀ k, k ∈ GoMap.keys (w1.mapAt lgB.fields) ↔
          (k ∈ GoMap.keys (sampleWorld.mapAt 0) ∨
            ∃ v, GoMap.get [("password", Value.str "p"), ("n", Value.nil), ("k", Value.int 1)] k
                = some v ∧
              filterSensitiveData Lib.plain k v ≠ Value.nil)) := by
  obtain ⟨⟨w1, b, lgB, h1, h2, _, h4, _⟩, _⟩ :=
    C8_copy_then_apply Lib.plain id (fun _ => List.Perm.refl _) sampleWorld 0
      { level := INFO, output := 5, pfx := "", logger := 0, colored := true, fields := 0,
        jsonMode := false } rfl
      [("password", Value.str "p"), ("n", Value.nil), ("k", Value.int 1)]
      (by unfold GoMap.WF GoMap.keys; decide) (by unfold GoMap.WF GoMap.keys; decide)
  exact ⟨w1, b, lgB, h1, h2, h4⟩

theorem intercalate_go_contains (sep x : String) :
    ∀ (as : List String) (acc : String), (Contains acc x ∨ x ∈ as) →
      Contains (String.intercalate.go acc sep as) x := by
  intro as
  induction as with
  | nil =>
    intro acc h
    rcases h with h | h
    · exact h
    · exact absurd h (List.not_mem_nil _)
  | cons a as ih =>
    intro acc h
    unfold String.intercalate.go
    apply ih
    rcases h with h | h
    · exact Or.inl (contains_left _ _ _ (contains_left _ _ _ h))
    · rcases List.mem_cons.1 h with h | h
      · subst h
        exact Or.inl (contains_right _ _ _ (contains_self _))
      · exact Or.inr h

theorem Join_contains (parts : List String) (sep x : String) (h : x ∈ parts) :
    Contains (strings.Join parts sep) x := by
  unfold strings.Join
  cases parts with
  | nil => exact absurd h (List.not_mem_nil _)
  | cons a as =>
    unfold String.intercalate
    apply intercalate_go_contains
    rcases List.mem_cons.1 h with h | h
    · subst h; exact Or.inl (contains_self _)
    · exact Or.inr h

theorem mem_of_get {m : Fields} {k : String} {v : Value} (h : GoMap.get m k = some v) :
    (k, v) ∈ m := by
  induction m with
  | nil => simp [GoMap.get] at h
  | cons e m ih =>
    obtain ⟨a, b⟩ := e
    by_cases hk : a = k
    · subst hk
      simp only [GoMap.get, if_true, Option.some.injEq] at h
      subst h
      exact List.mem_cons_self _ _
    · simp only [GoMap.get, if_neg hk] at h
      exact List.mem_cons_of_mem _ (ih h)

/-- The text line shows every field of the map as `key=value`. -/
theorem textLine_contains_field (lib : Lib) (range : Fields → Fields) (hr : IsRange range)
    (colored : Bool) (m : Fields) (level : Level) (now : Time) (msg : String) (k : String)
    (v : Value) (h : (k, v) ∈ m) :
    Contains (Logger.textLine lib range colored m level now msg)
      (k ++ "=" ++ formatValue lib v) := by
  have hpos : m.length > 0 := List.length_pos_of_mem h
  have hmem : (k, v) ∈ range m := (hr m).mem_iff.2 h
  have hf : Contains (Logger.fieldsText lib range m) (k ++ "=" ++ formatValue lib v) := by
    unfold Logger.fieldsText
    rw [if_pos hpos]
    apply contains_right
    apply Join_contains
    exact List.mem_map.2 ⟨(k, v), hmem, rfl⟩
  unfold Logger.textLine
  cases colored
  · simp only [Bool.false_eq_true, if_false]
    exact contains_right _ _ _ hf
  · simp only [if_true]
    exact contains_right _ _ _ hf

theorem infix_of_head_not_mem {α : Type} (c : α) (r : List α) :
    ∀ (X B : List α), c ∉ X → (c :: r) <:+: X ++ B → (c :: r) <:+: B := by
  intro X
  induction X with
  | nil => intro B _ h; exact h
  | cons x X ih =>
    intro B hc h
    rw [List.cons_append, List.infix_cons_iff] at h
    rcases h with h | h
    · exfalso
      obtain ⟨t, ht⟩ := h
      rw [List.cons_append] at ht
      have := (List.cons.inj ht).1
      exact hc (by rw [this]; exact List.mem_cons_self _ _)
    · exact ih B (fun hm => hc (List.mem_cons_of_mem _ hm)) h

theorem range_nil (range : Fields → Fields) (hr : IsRange range) : range [] = [] :=
  List.perm_nil.1 (hr [])

/-- The map of the logger derived from an empty map by
WithField("password", v). -/
theorem derived_password (lib : Lib) (range : Fields → Fields) (hr : IsRange range) (v : Value) :
    Logger.addFields lib range [("password", v)] (Logger.copyFields range [] []) =
      [("password", Value.str "[FILTERED]")] := by
  unfold Logger.addFields Logger.copyFields
  rw [range_nil range hr, range_singleton range hr]
  have hf : filterSensitiveData lib "password" v = Value.str "[FILTERED]" :=
    filter_sensitive lib "password" v (by
      have e : strings.ToLower lib "password" = "password" := rfl
      rw [e]; decide)
  simp only [List.foldl_cons, List.foldl_nil, hf]
  rfl

theorem fieldsText_password (lib : Lib) (range : Fields → Fields) (hr : IsRange range) :
    Logger.fieldsText lib range [("password", Value.str "[FILTERED]")] =
      " password=\"[FILTERED]\"" := by
  unfold Logger.fieldsText
  rw [range_singleton range hr]
  rfl

/-- The line of the scenario of C6, for any prefix and timestamp. -/
theorem scenario_line (lib : Lib) (range : Fields → Fields) (hr : IsRange range)
    (ad : StdLogger) (now : Time) :
    ad.line (Logger.textLine lib range false [("password", Value.str "[FILTERED]")] INFO now
        (fmt.Sprintf lib "login attempt" [])) =
      ad.pfx ++ ("[INFO]  " ++ (now.Format "2006.01.02 15:04:05.000" ++
        " login attempt  password=\"[FILTERED]\"\n")) := by
  unfold StdLogger.line Logger.textLine
  rw [fieldsText_password lib range hr]
  have hm : fmt.Sprintf lib "login attempt" [] = "login attempt" := rfl
  have hp : fmt.padRight 7 ("[" ++ levelName INFO ++ "]") = "[INFO] " := by decide
  simp only [hm, hp, Bool.false_eq_true, if_false]
  apply String.ext
  simp only [String.data_append, List.getLast?_append, List.append_assoc]
  rfl

theorem scenario_no_hunter2 (pfx ts : String) (hp : 'h' ∉ pfx.data) (ht : 'h' ∉ ts.data) :
    ¬ Contains (pfx ++ ("[INFO]  " ++ (ts ++ " login attempt  password=\"[FILTERED]\"\n")))
      "hunter2" := by
  unfold Contains
  simp only [String.data_append]
  intro h
  have h1 := infix_of_head_not_mem 'h' "unter2".data _ _ hp h
  have h2 := infix_of_head_not_mem 'h' "unter2".data "[INFO]  ".data _ (by decide) h1
  have h3 := infix_of_head_not_mem 'h' "unter2".data _ _ ht h2
  revert h3
  decide

theorem addFields_sensitive (lib : Lib) (range : Fields → Fields) (hr : IsRange range)
    (key : String) (v : Value) (acc : Fields) (hk : strings.ToLower lib key ∈ denylist) :
    Logger.addFields lib range [(key, v)] acc = GoMap.set acc key (Value.str "[FILTERED]") := by
  unfold Logger.addFields
  rw [range_singleton range hr]
  have hf : filterSensitiveData lib key v = Value.str "[FILTERED]" :=
    filter_sensitive lib key v hk
  simp only [List.foldl_cons, List.foldl_nil, hf]
  rw [if_pos (by decide)]

set_option maxRecDepth 100000 in
/-- C6 fails as stated: the line rendered by the logger obtained from
WithField("password", "FILTERED") contains the value "FILTERED", because the
marker printed in place of the value contains it. -/
theorem C6_value_can_occur :
    ∃ w1 b w2 data,
      Logger.WithField Lib.plain id sampleWorld 0 "password" (Value.str "FILTERED") =
          some (w1, b) ∧
        Logger.Info Lib.plain id sampleTime w1 b "login attempt" [] = some w2 ∧
        w2.trace = [Event.write 5 data] ∧ Contains data "FILTERED" :=
  ⟨_, _, _, _, rfl, rfl, rfl, by unfold Contains; decide⟩

/-- The lookup in the record of writeJSONLog. -/
theorem get_logEntry (range : Fields → Fields) (hr : IsRange range) (F : Fields)
    (hF : GoMap.WF F) (level : Level) (now : Time) (msg : String) (k : String) :
    GoMap.get (Logger.logEntry range F level now msg) k =
      match GoMap.get F k with
      | some v => some v
      | none =>
          if k = "timestamp" then some (Value.str (now.Format RFC3339Nano))
          else if k = "level" then some (Value.str (levelName level))
          else if k = "message" then some (Value.str msg)
          else none := by
  unfold Logger.logEntry
  rw [GoMap.get_foldl_set _ (WF_of_perm hF (hr F)), GoMap.get_perm _ _ hF (hr F)]
  cases GoMap.get F k with
  | some v => rfl
  | none =>
    simp only [GoMap.get]
    by_cases h1 : k = "timestamp"
    · simp [h1]
    by_cases h2 : k = "level"
    · simp [h2]
    by_cases h3 : k = "message"
    · simp [h3]
    simp [h1, h2, h3, Ne.symm h1, Ne.symm h2, Ne.symm h3]

/-- C9: the structured record. For every level, timestamp, message and field
set F, the record `logEntry` that writeJSONLog hands to `json.Marshal` holds
F's value under every key of F, and under a reserved key that is not a key of
F the RFC3339-nanosecond timestamp ("timestamp"), the name of the level
("level") and the message ("message"); so a field under a reserved key wins.
Its keys are exactly the three reserved keys and the keys of F, each once.
When `json.Marshal` succeeds, its result is the one line written. -/
theorem C9_structured_record (range : Fields → Fields) (hr : IsRange range) (F : Fields)
    (hF : GoMap.WF F) (level : Level) (now : Time) (msg : String) :
    (∀ k, GoMap.get (Logger.logEntry range F level now msg) k =
      match GoMap.get F k with
      | some v => some v
      | none =>
          if k = "timestamp" then some (Value.str (now.Format RFC3339Nano))
          else if k = "level" then some (Value.str (levelName level))
          else if k = "message" then some (Value.str msg)
          else none) ∧
    (∀ k, k ∈ GoMap.keys (Logger.logEntry range F level now msg) ↔
      (k = "timestamp" ∨ k = "level" ∨ k = "message" ∨ k ∈ GoMap.keys F)) ∧
    GoMap.WF (Logger.logEntry range F level now msg) ∧
    (∀ (lib : Lib) (w : World) (lg : Logger) (ad : StdLogger) (js : String),
      w.stdLoggers[lg.logger]? = some ad → w.mapAt lg.fields = F →
      lib.marshal (Logger.logEntry range F level now msg) = some js →
      Logger.writeJSONLog lib range w lg level now msg =
        some (w.emit (Event.write ad.out (ad.line (js ++ "\n"))))) := by
  refine ⟨get_logEntry range hr F hF level now msg, ?_, ?_, ?_⟩
  · intro k
    rw [GoMap.mem_keys_iff, GoMap.mem_keys_iff, get_logEntry range hr F hF level now msg k]
    cases GoMap.get F k with
    | some v => simp
    | none =>
      by_cases h1 : k = "timestamp"
      · simp [h1]
      by_cases h2 : k = "level"
      · simp [h2]
      by_cases h3 : k = "message"
      · simp [h3]
      simp [h1, h2, h3]
  · unfold Logger.logEntry
    apply GoMap.WF_foldl_set
    unfold GoMap.WF GoMap.keys
    simp only [List.map_cons, List.map_nil]
    decide
  · intro lib w lg ad js ha hm hj
    unfold Logger.writeJSONLog
    rw [hm, hj]
    simp only [StdLogger.Println, StdLogger.Output, ha]

theorem C9_structured_record_witness :
    GoMap.get (Logger.logEntry id [("user", Value.str "u"), ("level", Value.int 7)] WARN
        sampleTime "m") "level" = some (Value.int 7) ∧
      GoMap.get (Logger.logEntry id [("user", Value.str "u"), ("level", Value.int 7)] WARN
        sampleTime "m") "message" = some (Value.str "m") ∧
      GoMap.get (Logger.logEntry id [("user", Value.str "u")] WARN
        sampleTime "m") "level" = some (Value.str "WARN") := by
  have h1 := (C9_structured_record id (fun _ => List.Perm.refl _)
    [("user", Value.str "u"), ("level", Value.int 7)]
    (by unfold GoMap.WF GoMap.keys; decide) WARN sampleTime "m").1
  have h2 := (C9_structured_record id (fun _ => List.Perm.refl _)
    [("user", Value.str "u")]
    (by unfold GoMap.WF GoMap.keys; decide) WARN sampleTime "m").1
  exact ⟨(h1 "level").trans rfl, (h1 "message").trans rfl, (h2 "level").trans rfl⟩

/-- The text line without colour, part by part. -/
theorem textLine_plain (lib : Lib) (range : Fields → Fields) (m : Fields) (level : Level)
    (now : Time) (msg : String) :
    Logger.textLine lib range false m level now msg =
      fmt.padRight 7 ("[" ++ levelName level ++ "]") ++ " " ++
        now.Format "2006.01.02 15:04:05.000" ++ " " ++ msg ++ " " ++
        (if m = [] then ""
         else " " ++ strings.Join ((range m).map (fun e => e.1 ++ "=" ++ formatValue lib e.2)) " ") := by
  unfold Logger.textLine Logger.fieldsText
  cases m with
  | nil => simp
  | cons e m => simp

/-- C10, on the code: with colour off and an empty field set the text line of
Info("x") is the padded level, a space, the timestamp, a space, the message and
then one more space, so the line does not end with the message; with the one
field k=1 the message and the field are two spaces apart. -/
theorem C10_text_line_spacing :
    Logger.textLine Lib.plain id false [] INFO sampleTime "x" =
        "[INFO]  2024.01.02 03:04:05.678 x " ∧
      Logger.textLine Lib.plain id false [("k", Value.int 1)] INFO sampleTime "x" =
        "[INFO]  2024.01.02 03:04:05.678 x  k=1" ∧
      (Logger.Info Lib.plain id sampleTime plainWorld 0 "x" []).map World.trace =
        some [Event.write 5 "[INFO]  2024.01.02 03:04:05.678 x \n"] := by
  decide

/-- C11: colour only decorates the level token. For every level, timestamp,
message and field set, the line without colour is the padded bracketed level
followed by a tail (timestamp, message, fields), and the line with colour is
the escape of the level, the same padded bracketed level, the reset code and
the same tail. The escapes are ESC[36m for DEBUG, ESC[32m for INFO, ESC[33m for
WARN, ESC[31m for ERROR and ESC[35m for FATAL, and the reset code is ESC[0m. -/
theorem C11_color_decorates_level_token (lib : Lib) (range : Fields → Fields) (m : Fields)
    (level : Level) (now : Time) (msg : String) :
    Logger.textLine lib range false m level now msg =
        fmt.padRight 7 ("[" ++ levelName level ++ "]") ++ Logger.lineTail lib range m now msg ∧
      Logger.textLine lib range true m level now msg =
        (GoMap.get colors level).getD "" ++ fmt.padRight 7 ("[" ++ levelName level ++ "]") ++
          reset ++ Logger.lineTail lib range m now msg ∧
      (GoMap.get colors DEBUG).getD "" = "\x1b[36m" ∧
      (GoMap.get colors INFO).getD "" = "\x1b[32m" ∧
      (GoMap.get colors WARN).getD "" = "\x1b[33m" ∧
      (GoMap.get colors ERROR).getD "" = "\x1b[31m" ∧
      (GoMap.get colors FATAL).getD "" = "\x1b[35m" ∧
      reset = "\x1b[0m" := by
  refine ⟨?_, ?_, rfl, rfl, rfl, rfl, rfl, rfl⟩
  · unfold Logger.textLine Logger.lineTail
    simp only [Bool.false_eq_true, if_false, String.append_assoc]
  · unfold Logger.textLine Logger.lineTail
    simp only [if_true, String.append_assoc]

/-- C12, on the code: on the logger made by NewLogger(out, "", Level(5)), whose
threshold is above FATAL, the call Fatal("x") is stopped by the level filter at
the head of `log` like any other call: it returns the state as it was, with
nothing written and no exit, where the comment on `Fatal` says that it writes
the record and exits the program. -/
theorem C12_fatal_filtered_above_FATAL :
    Logger.Fatal Lib.plain id sampleTime (NewLogger World.empty 5 "" 5).1 0 "x" [] =
        some (NewLogger World.empty 5 "" 5).1 ∧
      (NewLogger World.empty 5 "" 5).1.trace = [] := by
  decide

/-- A call in JSON mode that passes the filter writes the JSON text and a
newline when `json.Marshal` succeeds. -/
theorem log_json (lib : Lib) (range : Fields → Fields) (now : Time) (w : World) (l : Nat)
    (lg : Logger) (ad : StdLogger) (level : Level) (format : String) (v : List Value)
    (js : String)
    (hl : w.loggers[l]? = some lg) (ha : w.stdLoggers[lg.logger]? = some ad)
    (hle : lg.level ≤ level) (hj : lg.jsonMode = true)
    (hm : lib.marshal (Logger.logEntry range (w.mapAt lg.fields) level now
      (fmt.Sprintf lib format v)) = some js) :
    Logger.log lib range now w l level format v =
      some (w.logged ad.out (ad.line (js ++ "\n")) level) := by
  have hnot : ¬ level < lg.level := not_lt.mpr hle
  unfold Logger.log World.logged
  simp only [hl, if_neg hnot, hj, if_true, Logger.writeJSONLog, hm, StdLogger.Println,
    StdLogger.Output, ha]
  split <;> rfl

/-- A call in JSON mode that passes the filter writes the text line when
`json.Marshal` fails. -/
theorem log_json_fallback (lib : Lib) (range : Fields → Fields) (now : Time) (w : World)
    (l : Nat) (lg : Logger) (ad : StdLogger) (level : Level) (format : String)
    (v : List Value)
    (hl : w.loggers[l]? = some lg) (ha : w.stdLoggers[lg.logger]? = some ad)
    (hle : lg.level ≤ level) (hj : lg.jsonMode = true)
    (hm : lib.marshal (Logger.logEntry range (w.mapAt lg.fields) level now
      (fmt.Sprintf lib format v)) = none) :
    Logger.log lib range now w l level format v =
      some (w.logged ad.out
        (ad.line (Logger.textLine lib range lg.colored (w.mapAt lg.fields) level now
          (fmt.Sprintf lib format v))) level) := by
  have hnot : ¬ level < lg.level := not_lt.mpr hle
  unfold Logger.log World.logged
  simp only [hl, if_neg hnot, hj, if_true, Logger.writeJSONLog, hm, Logger.writeTextLog,
    StdLogger.Printf, StdLogger.Output, ha]
  split <;> rfl

theorem fieldsText_parts (lib : Lib) (range : Fields → Fields) (hr : IsRange range)
    (F : Fields) :
    ∃ parts, parts.Perm (F.map (fun e => e.1 ++ "=" ++ formatValue lib e.2)) ∧
      Logger.fieldsText lib range F =
        if F = [] then "" else " " ++ strings.Join parts " " := by
  refine ⟨(range F).map (fun e => e.1 ++ "=" ++ formatValue lib e.2), (hr F).map _, ?_⟩
  unfold Logger.fieldsText
  cases F with
  | nil => simp
  | cons e F => simp

/-- C14 fails as stated: with the field set that has the one entry level: 7,
the record holds 7 under "level" while the text line shows [WARN]; with the
one entry message: "other", the record holds "other" under "message" while the
message of the text line is m. -/
theorem C14_reserved_key_collision :
    GoMap.get (Logger.logEntry id [("level", Value.int 7)] WARN sampleTime "m") "level" =
        some (Value.int 7) ∧
      Contains (Logger.textLine Lib.plain id false [("level", Value.int 7)] WARN sampleTime "m")
        "[WARN]" ∧
      GoMap.get (Logger.logEntry id [("message", Value.str "other")] WARN sampleTime "m")
        "message" = some (Value.str "other") ∧
      Logger.textLine Lib.plain id false [("message", Value.str "other")] WARN sampleTime "m" =
        "[WARN]  2024.01.02 03:04:05.678 m  message=\"other\"" := by
  refine ⟨by decide, ?_, by decide, by decide⟩
  unfold Contains
  decide

/-- C14, amended: structured and text content. For a field set F without the
key "level" the record holds the level name under "level", and without the key
"message" it holds the message under "message"; the text line shows the
bracketed level name and the message. For every field set, every entry of F is
in the record with F's value and is shown in the text line as
key=formatValue(value); the record has no keys besides the three reserved ones
and those of F, and the parts of the fields string are the entries of F, each
once, in the order of the iteration. -/
theorem C14_structured_text_equivalence (lib : Lib) (range range' : Fields → Fields)
    (hr : IsRange range) (hr' : IsRange range') (F : Fields) (hF : GoMap.WF F)
    (colored : Bool) (level : Level) (now : Time) (msg : String) :
    ("level" ∉ GoMap.keys F →
      GoMap.get (Logger.logEntry range F level now msg) "level" =
        some (Value.str (levelName level))) ∧
    ("message" ∉ GoMap.keys F →
      GoMap.get (Logger.logEntry range F level now msg) "message" = some (Value.str msg)) ∧
    Contains (Logger.textLine lib range' colored F level now msg)
      ("[" ++ levelName level ++ "]") ∧
    Contains (Logger.textLine lib range' colored F level now msg) msg ∧
    (∀ k v, GoMap.get F k = some v →
      GoMap.get (Logger.logEntry range F level now msg) k = some v ∧
        Contains (Logger.textLine lib range' colored F level now msg)
          (k ++ "=" ++ formatValue lib v)) ∧
    (∀ k, k ∈ GoMap.keys (Logger.logEntry range F level now msg) →
      k = "timestamp" ∨ k = "level" ∨ k = "message" ∨ k ∈ GoMap.keys F) ∧
    (∃ parts, parts.Perm (F.map (fun e => e.1 ++ "=" ++ formatValue lib e.2)) ∧
      Logger.fieldsText lib range' F =
        if F = [] then "" else " " ++ strings.Join parts " ") := by
  have hget := get_logEntry range hr F hF level now msg
  refine ⟨?_, ?_, (textLine_contains lib range' colored F level now msg).1,
    (textLine_contains lib range' colored F level now msg).2, ?_, ?_,
    fieldsText_parts lib range' hr' F⟩
  · intro hk
    rw [hget "level", (GoMap.get_eq_none_iff F "level").2 hk]
    rfl
  · intro hk
    rw [hget "message", (GoMap.get_eq_none_iff F "message").2 hk]
    rfl
  · intro k v hkv
    refine ⟨?_, textLine_contains_field lib range' hr' colored F level now msg k v
      (mem_of_get hkv)⟩
    rw [hget k, hkv]
  · intro k hk
    rw [GoMap.mem_keys_iff] at hk
    obtain ⟨v, hv⟩ := hk
    rw [hget k] at hv
    cases hF' : GoMap.get F k with
    | some u =>
      exact Or.inr (Or.inr (Or.inr ((GoMap.mem_keys_iff F k).2 ⟨u, hF'⟩)))
    | none =>
      rw [hF'] at hv
      by_cases h1 : k = "timestamp"
      · exact Or.inl h1
      by_cases h2 : k = "level"
      · exact Or.inr (Or.inl h2)
      by_cases h3 : k = "message"
      · exact Or.inr (Or.inr (Or.inl h3))
      simp [h1, h2, h3] at hv

theorem C14_structured_text_equivalence_witness :
    GoMap.get (Logger.logEntry id [("password", Value.str "[FILTERED]"), ("n", Value.int 1)]
        WARN sampleTime "m") "level" = some (Value.str "WARN") ∧
      GoMap.get (Logger.logEntry id [("password", Value.str "[FILTERED]"), ("n", Value.int 1)]
        WARN sampleTime "m") "password" = some (Value.str "[FILTERED]") ∧
      Contains (Logger.textLine Lib.plain id false
          [("password", Value.str "[FILTERED]"), ("n", Value.int 1)] WARN sampleTime "m")
        ("password" ++ "=" ++ formatValue Lib.plain (Value.str "[FILTERED]")) := by
  have h := C14_structured_text_equivalence Lib.plain id id (fun _ => List.Perm.refl _)
    (fun _ => List.Perm.refl _) [("password", Value.str "[FILTERED]"), ("n", Value.int 1)]
    (by unfold GoMap.WF GoMap.keys; decide) false WARN sampleTime "m"
  have h5 := h.2.2.2.2.1 "password" (Value.str "[FILTERED]") rfl
  exact ⟨(h.1 (by unfold GoMap.keys; decide)).trans rfl, h5.1, h5.2⟩

theorem escapeRune_plain (lib : Lib) (c : Char) (h : IsPlainRune c) :
    strconv.escapeRune lib c = String.singleton c := by
  obtain ⟨h1, h2, h3, h4⟩ := h
  unfold strconv.escapeRune
  rw [if_neg (by simp [h3, h4]), if_pos (by omega), if_pos ⟨h1, h2⟩]

theorem join_escape_plain (lib : Lib) (cs : List Char) (h : ∀ c ∈ cs, IsPlainRune c) :
    (String.join (cs.map (strconv.escapeRune lib))).data = cs := by
  rw [String.data_join]
  induction cs with
  | nil => rfl
  | cons c cs ih =>
    simp only [List.map_cons, List.flatten_cons]
    rw [escapeRune_plain lib c (h c (List.mem_cons_self _ _)),
      ih (fun x hx => h x (List.mem_cons_of_mem _ hx))]
    rfl

theorem Quote_plain (lib : Lib) (s : String) (h : ∀ c ∈ s.data, IsPlainRune c) :
    strconv.Quote lib s = "\"" ++ s ++ "\"" := by
  unfold strconv.Quote
  apply String.ext
  simp only [String.data_append, join_escape_plain lib s.data h]

/-- C16: field values in the text form. formatValue returns the `%q` quoting
of a string, of the message of an error and of the `String()` text of a
Stringer: text between double quotes, which for printable ASCII text without
quote or backslash is the text itself. For every other value it returns the
`%v` form: `<nil>`, the decimal digits of an integer, `true` or `false`, and
what the library prints for the remaining kinds. The fields string of the text
line is made of the parts key=formatValue(value), one for every field. -/
theorem C16_format_value (lib : Lib) :
    (∀ s, formatValue lib (Value.str s) = strconv.Quote lib s) ∧
    (∀ msg, formatValue lib (Value.err msg) = strconv.Quote lib msg) ∧
    (∀ s, formatValue lib (Value.stringer s) = strconv.Quote lib s) ∧
    (∀ s, ∃ body, strconv.Quote lib s = "\"" ++ body ++ "\"") ∧
    (∀ s, (∀ c ∈ s.data, IsPlainRune c) → strconv.Quote lib s = "\"" ++ s ++ "\"") ∧
    formatValue lib Value.nil = "<nil>" ∧
    (∀ n, formatValue lib (Value.int n) = toString n) ∧
    formatValue lib (Value.bool true) = "true" ∧
    formatValue lib (Value.bool false) = "false" ∧
    (∀ tag, formatValue lib (Value.other tag) = lib.showOther tag) ∧
    (∀ v, (∀ s, v ≠ Value.str s ∧ v ≠ Value.err s ∧ v ≠ Value.stringer s) →
      formatValue lib v = fmt.Sprintv lib v) ∧
    (∀ (range : Fields → Fields) (colored : Bool) (m : Fields) (level : Level) (now : Time)
        (msg : String),
      IsRange range →
      (∃ parts, parts.Perm (m.map (fun e => e.1 ++ "=" ++ formatValue lib e.2)) ∧
        Logger.fieldsText lib range m =
          if m = [] then "" else " " ++ strings.Join parts " ") ∧
      ∀ k v, (k, v) ∈ m →
        Contains (Logger.textLine lib range colored m level now msg)
          (k ++ "=" ++ formatValue lib v)) := by
  refine ⟨fun _ => rfl, fun _ => rfl, fun _ => rfl, fun s => ⟨_, rfl⟩, Quote_plain lib, rfl,
    fun _ => rfl, rfl, rfl, fun _ => rfl, ?_, ?_⟩
  · intro v hv
    cases v with
    | str s => exact absurd rfl (hv s).1
    | err s => exact absurd rfl (hv s).2.1
    | stringer s => exact absurd rfl (hv s).2.2
    | nil => rfl
    | int n => rfl
    | bool b => rfl
    | other t => rfl
  · intro range colored m level now msg hr
    exact ⟨fieldsText_parts lib range hr m,
      fun k v h => textLine_contains_field lib range hr colored m level now msg k v h⟩

theorem C16_format_value_witness :
    formatValue Lib.plain (Value.str "a b") = "\"a b\"" ∧
      formatValue Lib.plain (Value.err "disk \"full\"") = "\"disk \\\"full\\\"\"" ∧
      formatValue Lib.plain (Value.int (-3)) = "-3" ∧
      Contains (Logger.textLine Lib.plain id false [("k", Value.str "a b"), ("n", Value.int (-3))]
        INFO sampleTime "m") ("n" ++ "=" ++ formatValue Lib.plain (Value.int (-3))) := by
  have h := C16_format_value Lib.plain
  refine ⟨(h.1 "a b").trans (by decide), (h.2.1 "disk \"full\"").trans (by decide),
    (h.2.2.2.2.2.2.1 (-3)).trans (by decide), ?_⟩
  exact (h.2.2.2.2.2.2.2.2.2.2.2 id false [("k", Value.str "a b"), ("n", Value.int (-3))]
    INFO sampleTime "m" (fun _ => List.Perm.refl _)).2 "n" (Value.int (-3)) (by decide)

theorem mem_set {m : Fields} {k k0 : String} {v v0 : Value}
    (h : (k, v) ∈ GoMap.set m k0 v0) : (k, v) ∈ m ∨ (k = k0 ∧ v = v0) := by
  induction m with
  | nil =>
    simp only [GoMap.set, List.mem_singleton, Prod.mk.injEq] at h
    exact Or.inr h
  | cons e m ih =>
    obtain ⟨a, b⟩ := e
    by_cases hk : a = k0
    · simp only [GoMap.set, if_pos hk, List.mem_cons, Prod.mk.injEq] at h
      rcases h with h | h
      · exact Or.inr h
      · exact Or.inl (List.mem_cons_of_mem _ h)
    · simp only [GoMap.set, if_neg hk, List.mem_cons] at h
      rcases h with h | h
      · exact Or.inl (by rw [h]; exact List.mem_cons_self _ _)
      · rcases ih h with h' | h'
        · exact Or.inl (List.mem_cons_of_mem _ h')
        · exact Or.inr h'

theorem mem_keys_set_of_mem {m : Fields} {k : String} (k0 : String) (v0 : Value)
    (h : k ∈ GoMap.keys m) : k ∈ GoMap.keys (GoMap.set m k0 v0) := by
  rw [GoMap.keys_set]
  split
  · exact h
  · exact List.mem_append_left _ h

theorem mem_keys_set_self (m : Fields) (k0 : String) (v0 : Value) :
    k0 ∈ GoMap.keys (GoMap.set m k0 v0) :=
  (GoMap.mem_keys_iff _ _).2 ⟨v0, GoMap.get_set_self m k0 v0⟩

theorem Redacted_set (lib : Lib) (m : Fields) (k0 : String) (v0 : Value)
    (hm : Redacted lib m) (h0 : strings.ToLower lib k0 ∈ denylist → v0 = Value.str "[FILTERED]") :
    Redacted lib (GoMap.set m k0 v0) := by
  intro k v hkv hs
  rcases mem_set hkv with h | ⟨h1, h2⟩
  · exact hm k v h hs
  · rw [h2]; exact h0 (h1 ▸ hs)

theorem Redacted_nil (lib : Lib) : Redacted lib [] := by
  intro k v h
  exact absurd h (List.not_mem_nil _)

/-- The first loop of WithFields keeps a redacted map redacted and keeps its
keys. -/
theorem Redacted_copyFields (lib : Lib) (range : Fields → Fields) (hr : IsRange range)
    (P : Fields) (hP : Redacted lib P) :
    Redacted lib (Logger.copyFields range P []) ∧
      ∀ k, k ∈ GoMap.keys P → k ∈ GoMap.keys (Logger.copyFields range P []) := by
  unfold Logger.copyFields
  have hsub : ∀ e ∈ range P, e ∈ P := fun e he => (hr P).mem_iff.1 he
  have hkeys : ∀ k, k ∈ GoMap.keys P → k ∈ GoMap.keys (range P) := by
    intro k hk
    unfold GoMap.keys at *
    exact ((hr P).map Prod.fst).mem_iff.2 hk
  have gen : ∀ (es acc : Fields), (∀ e ∈ es, e ∈ P) → Redacted lib acc →
      Redacted lib (es.foldl (fun acc e => GoMap.set acc e.1 e.2) acc) ∧
        ∀ k, (k ∈ GoMap.keys acc ∨ k ∈ GoMap.keys es) →
          k ∈ GoMap.keys (es.foldl (fun acc e => GoMap.set acc e.1 e.2) acc) := by
    intro es
    induction es with
    | nil =>
      intro acc _ hacc
      refine ⟨hacc, fun k hk => ?_⟩
      rcases hk with hk | hk
      · exact hk
      · exact absurd hk (List.not_mem_nil _)
    | cons e es ih =>
      intro acc hes hacc
      rw [List.foldl_cons]
      have hred : Redacted lib (GoMap.set acc e.1 e.2) :=
        Redacted_set lib acc e.1 e.2 hacc
          (fun hs => hP e.1 e.2 (hes e (List.mem_cons_self _ _)) hs)
      obtain ⟨h1, h2⟩ := ih (GoMap.set acc e.1 e.2)
        (fun x hx => hes x (List.mem_cons_of_mem _ hx)) hred
      refine ⟨h1, fun k hk => h2 k ?_⟩
      rcases hk with hk | hk
      · exact Or.inl (mem_keys_set_of_mem _ _ hk)
      · unfold GoMap.keys at hk
        rw [List.map_cons, List.mem_cons] at hk
        rcases hk with hk | hk
        · exact Or.inl (hk ▸ mem_keys_set_self acc e.1 e.2)
        · exact Or.inr hk
  obtain ⟨h1, h2⟩ := gen (range P) [] hsub (Redacted_nil lib)
  exact ⟨h1, fun k hk => h2 k (Or.inr (hkeys k hk))⟩

/-- The second loop of WithFields keeps a redacted map redacted and keeps its
keys. -/
theorem Redacted_addFields (lib : Lib) (range : Fields → Fields) (fields acc : Fields)
    (hacc : Redacted lib acc) :
    Redacted lib (Logger.addFields lib range fields acc) ∧
      ∀ k, k ∈ GoMap.keys acc → k ∈ GoMap.keys (Logger.addFields lib range fields acc) := by
  unfold Logger.addFields
  generalize range fields = es
  induction es generalizing acc with
  | nil => exact ⟨hacc, fun k hk => hk⟩
  | cons e es ih =>
    rw [List.foldl_cons]
    by_cases hf : filterSensitiveData lib e.1 e.2 ≠ Value.nil
    · rw [if_pos hf]
      have hred : Redacted lib (GoMap.set acc e.1 (filterSensitiveData lib e.1 e.2)) :=
        Redacted_set lib acc _ _ hacc (fun hs => filter_sensitive lib e.1 e.2 hs)
      obtain ⟨h1, h2⟩ := ih _ hred
      exact ⟨h1, fun k hk => h2 k (mem_keys_set_of_mem _ _ hk)⟩
    · rw [if_neg hf]
      exact ih acc hacc

theorem Redacted_mapAt (lib : Lib) (w : World) (h : ∀ m ∈ w.maps, Redacted lib m) (a : Nat) :
    Redacted lib (w.mapAt a) := by
  unfold World.mapAt
  cases hm : w.maps[a]? with
  | none => exact Redacted_nil lib
  | some m => exact h m (List.getElem?_mem hm)


/-- A logging call changes nothing but the trace. -/
theorem log_frame (lib : Lib) (range : Fields → Fields) (now : Time) (w w' : World) (l : Nat)
    (level : Level) (format : String) (v : List Value)
    (h : Logger.log lib range now w l level format v = some w') :
    w'.loggers = w.loggers ∧ w'.stdLoggers = w.stdLoggers ∧ w'.maps = w.maps := by
  unfold Logger.log at h
  cases hl : w.loggers[l]? with
  | none => rw [hl] at h; exact Option.noConfusion h
  | some lg =>
    rw [hl] at h
    simp only at h
    by_cases hlt : level < lg.level
    · rw [if_pos hlt] at h
      cases h
      exact ⟨rfl, rfl, rfl⟩
    · rw [if_neg hlt] at h
      have hout : ∀ (s : String) (w1 : World), StdLogger.Output w lg.logger s = some w1 →
          w1.loggers = w.loggers ∧ w1.stdLoggers = w.stdLoggers ∧ w1.maps = w.maps := by
        intro s w1 hs
        unfold StdLogger.Output at hs
        cases ha : w.stdLoggers[lg.logger]? with
        | none => rw [ha] at hs; exact Option.noConfusion hs
        | some ad =>
          rw [ha] at hs
          cases hs
          exact ⟨rfl, rfl, rfl⟩
      have hwr : ∀ w1, (if lg.jsonMode = true then
            Logger.writeJSONLog lib range w lg level now (fmt.Sprintf lib format v)
          else Logger.writeTextLog lib range w lg level now (fmt.Sprintf lib format v)) = some w1 →
          w1.loggers = w.loggers ∧ w1.stdLoggers = w.stdLoggers ∧ w1.maps = w.maps := by
        intro w1 hw1
        by_cases hj : lg.jsonMode = true
        · rw [if_pos hj] at hw1
          unfold Logger.writeJSONLog at hw1
          cases hm : lib.marshal (Logger.logEntry range (w.mapAt lg.fields) level now
              (fmt.Sprintf lib format v)) with
          | none => rw [hm] at hw1; exact hout _ w1 hw1
          | some js => rw [hm] at hw1; exact hout _ w1 hw1
        · rw [if_neg hj] at hw1
          exact hout _ w1 hw1
      cases hwritten : (if lg.jsonMode = true then
            Logger.writeJSONLog lib range w lg level now (fmt.Sprintf lib format v)
          else Logger.writeTextLog lib range w lg level now (fmt.Sprintf lib format v)) with
      | none => rw [hwritten] at h; exact Option.noConfusion h
      | some w1 =>
        rw [hwritten] at h
        have h1 := hwr w1 hwritten
        simp only at h
        by_cases hF : level = FATAL
        · rw [if_pos hF] at h
          cases h
          exact h1
        · rw [if_neg hF] at h
          cases h
          exact h1

/-- Every call keeps the allocated maps as they are and allocates at most one
more, which is redacted when the maps were. -/
theorem run_maps (lib : Lib) (range : Fields → Fields) (hr : IsRange range) (now : Time)
    (w w' : World) (c : Call) (h : Call.run lib range now w c = some w') :
    ∃ extra, w'.maps = w.maps ++ extra ∧
      ((∀ m ∈ w.maps, Redacted lib m) → ∀ m ∈ extra, Redacted lib m) := by
  have hderive : ∀ (l : Nat) (fields : Fields) (r : World × Nat),
      Logger.WithFields lib range w l fields = some r →
      ∃ extra, r.1.maps = w.maps ++ extra ∧
        ((∀ m ∈ w.maps, Redacted lib m) → ∀ m ∈ extra, Redacted lib m) := by
    intro l fields r hw
    cases hl : w.loggers[l]? with
    | none =>
      unfold Logger.WithFields at hw
      rw [hl] at hw
      exact Option.noConfusion hw
    | some lg =>
      rw [WithFields_eq lib range w l lg fields hl] at hw
      cases hw
      refine ⟨[_], rfl, ?_⟩
      intro hred m hm
      rw [List.mem_singleton] at hm
      rw [hm]
      exact (Redacted_addFields lib range fields _
        (Redacted_copyFields lib range hr _ (Redacted_mapAt lib w hred lg.fields)).1).1
  have hsame : w'.maps = w.maps → ∃ extra, w'.maps = w.maps ++ extra ∧
      ((∀ m ∈ w.maps, Redacted lib m) → ∀ m ∈ extra, Redacted lib m) := by
    intro he
    exact ⟨[], by rw [he, List.append_nil], fun _ m hm => absurd hm (List.not_mem_nil _)⟩
  cases c with
  | newLogger out pfx level =>
    simp only [Call.run, NewLogger, Option.some.injEq] at h
    subst h
    refine ⟨[[]], rfl, ?_⟩
    intro _ m hm
    rw [List.mem_singleton] at hm
    rw [hm]
    exact Redacted_nil lib
  | withFields l fields =>
    simp only [Call.run, Option.map_eq_some'] at h
    obtain ⟨r, hr1, hr2⟩ := h
    rw [← hr2]
    exact hderive l fields r hr1
  | withField l key value =>
    simp only [Call.run, Option.map_eq_some', Logger.WithField] at h
    obtain ⟨r, hr1, hr2⟩ := h
    rw [← hr2]
    exact hderive l _ r hr1
  | withError l err =>
    simp only [Call.run, Option.map_eq_some', Logger.WithError] at h
    obtain ⟨r, hr1, hr2⟩ := h
    rw [← hr2]
    cases err with
    | none => exact Option.noConfusion hr1
    | some msg => exact hderive l _ r hr1
  | setLevel l level =>
    apply hsame
    simp only [Call.run, Logger.SetLevel] at h
    cases hl : w.loggers[l]? with
    | none => rw [hl] at h; exact Option.noConfusion h
    | some lg => rw [hl] at h; cases h; rfl
  | setColored l colored =>
    apply hsame
    simp only [Call.run, Logger.SetColored] at h
    cases hl : w.loggers[l]? with
    | none => rw [hl] at h; exact Option.noConfusion h
    | some lg => rw [hl] at h; cases h; rfl
  | setJSONMode l enabled =>
    apply hsame
    simp only [Call.run, Logger.SetJSONMode] at h
    cases hl : w.loggers[l]? with
    | none => rw [hl] at h; exact Option.noConfusion h
    | some lg => rw [hl] at h; cases h; rfl
  | setOutput out =>
    apply hsame
    simp only [Call.run, SetOutput] at h
    cases hl : w.loggers[defaultLogger]? with
    | none => rw [hl] at h; exact Option.noConfusion h
    | some lg => rw [hl] at h; cases h; rfl
  | log l level format v =>
    apply hsame
    exact (log_frame lib range now w w' l level format v h).2.2

/-- In every reachable state every allocated map is redacted. -/
theorem reachable_redacted (lib : Lib) (w : World) (h : Reachable lib w) :
    ∀ m ∈ w.maps, Redacted lib m := by
  induction h with
  | start =>
    intro m hm
    exact absurd hm (List.not_mem_nil _)
  | step w w' c range now _ _ hr hrun ih =>
    obtain ⟨extra, he, hextra⟩ := run_maps lib range hr now w w' c hrun
    intro m hm
    rw [he, List.mem_append] at hm
    rcases hm with hm | hm
    · exact ih m hm
    · exact hextra ih m hm

theorem mapAt_of_maps_append (w w' : World) (extra : List Fields)
    (h : w'.maps = w.maps ++ extra) (a : Nat) (ha : a < w.maps.length) :
    w'.mapAt a = w.mapAt a := by
  unfold World.mapAt
  rw [h, List.getElem?_append_left ha]

/-- C17: redaction is an invariant of the reachable states. In every state
reached from the empty state by any finite sequence of calls (NewLogger,
WithField, WithFields, WithError, the setters, logging calls), the field set of
every logger holds the marker "[FILTERED]" under every key whose lower-cased
form is on the denylist. No call changes a map that is already allocated, so a
marker is never replaced; and the map of a logger derived by WithFields holds
the marker under every denylisted key of the parent's map. -/
theorem C17_redaction_invariant (lib : Lib) (w : World) (h : Reachable lib w) :
    (∀ (l : Nat) (lg : Logger), w.loggers[l]? = some lg → Redacted lib (w.mapAt lg.fields)) ∧
    (∀ (l : Nat) (lg : Logger) (k : String) (v : Value), w.loggers[l]? = some lg →
      GoMap.get (w.mapAt lg.fields) k = some v → strings.ToLower lib k ∈ denylist →
      v = Value.str "[FILTERED]") ∧
    (∀ (range : Fields → Fields) (now : Time) (c : Call) (w' : World), IsRange range →
      Call.run lib range now w c = some w' →
      ∀ a, a < w.maps.length → w'.mapAt a = w.mapAt a) ∧
    (∀ (range : Fields → Fields) (l : Nat) (lg : Logger) (fields : Fields) (w' : World)
        (b : Nat) (lgB : Logger), IsRange range → w.loggers[l]? = some lg →
      Logger.WithFields lib range w l fields = some (w', b) → w'.loggers[b]? = some lgB →
      ∀ k, k ∈ GoMap.keys (w.mapAt lg.fields) → strings.ToLower lib k ∈ denylist →
        GoMap.get (w'.mapAt lgB.fields) k = some (Value.str "[FILTERED]")) := by
  have hred := reachable_redacted lib w h
  refine ⟨fun l lg _ => Redacted_mapAt lib w hred lg.fields, ?_, ?_, ?_⟩
  · intro l lg k v _ hget hs
    exact Redacted_mapAt lib w hred lg.fields k v (mem_of_get hget) hs
  · intro range now c w' hr hrun a ha
    obtain ⟨extra, he, _⟩ := run_maps lib range hr now w w' c hrun
    exact mapAt_of_maps_append w w' extra he a ha
  · intro range l lg fields w' b lgB hr hl hW hB k hk hs
    rw [WithFields_eq lib range w l lg fields hl] at hW
    simp only [Option.some.injEq, Prod.mk.injEq] at hW
    obtain ⟨hw, hb⟩ := hW
    subst hw
    subst hb
    rw [loggers_append_new] at hB
    simp only [Option.some.injEq] at hB
    subst hB
    simp only []
    rw [mapAt_append_new]
    have hP := Redacted_mapAt lib w hred lg.fields
    have hc := Redacted_copyFields lib range hr _ hP
    have ha := Redacted_addFields lib range fields _ hc.1
    have hkey := ha.2 k (hc.2 k hk)
    obtain ⟨v, hv⟩ := (GoMap.mem_keys_iff _ _).1 hkey
    rw [hv, ha.1 k v (mem_of_get hv) hs]

theorem sampleRun_reachable : Reachable Lib.plain sampleRun := by
  have hid : IsRange id := fun _ => List.Perm.refl _
  have h0 : Reachable Lib.plain World.empty := Reachable.start
  have h1 := Reachable.step World.empty _ (Call.newLogger 5 "" INFO) id sampleTime h0
    (fun _ hc => List.not_mem_nil _ hc) hid rfl
  have h2 := Reachable.step _ _ (Call.withField 0 "Password" (Value.str "hunter2")) id
    sampleTime h1 (fun _ hc => List.not_mem_nil _ hc) hid rfl
  have h3 := Reachable.step _ _ (Call.setLevel 1 WARN) id sampleTime h2
    (fun _ hc => List.not_mem_nil _ hc) hid rfl
  have h4 := Reachable.step _ _
    (Call.withFields 1 [("token", Value.int 7), ("user", Value.str "u")]) id sampleTime h3
    (fun _ hc => List.not_mem_nil _ hc) hid rfl
  exact h4

theorem C17_redaction_invariant_witness :
    Reachable Lib.plain sampleRun ∧
      sampleRun.mapAt 2 =
        [("Password", Value.str "[FILTERED]"), ("token", Value.str "[FILTERED]"),
          ("user", Value.str "u")] ∧
      Redacted Lib.plain (sampleRun.mapAt 2) :=
  ⟨sampleRun_reachable, by decide,
    (C17_redaction_invariant Lib.plain sampleRun sampleRun_reachable).1 2
      { level := WARN, output := 5, pfx := "", logger := 0, colored := true, fields := 2,
        jsonMode := false } (by decide)⟩

/-- A call that passes the filter writes what `rendered` gives for the flags
and the field set of the logger, through the logger's `log.Logger`. -/
theorem log_rendered (lib : Lib) (range : Fields → Fields) (now : Time) (w : World) (l : Nat)
    (lg : Logger) (ad : StdLogger) (level : Level) (format : String) (v : List Value)
    (hl : w.loggers[l]? = some lg) (ha : w.stdLoggers[lg.logger]? = some ad)
    (hle : lg.level ≤ level) :
    Logger.log lib range now w l level format v =
      some (w.logged ad.out
        (ad.line (Logger.rendered lib range lg.colored lg.jsonMode (w.mapAt lg.fields) level now
          (fmt.Sprintf lib format v))) level) := by
  unfold Logger.rendered
  cases hj : lg.jsonMode with
  | false =>
    simp only [Bool.false_eq_true, if_false]
    exact log_text lib range now w l lg ad level format v hl ha hle hj
  | true =>
    simp only [if_true]
    cases hm : lib.marshal (Logger.logEntry range (w.mapAt lg.fields) level now
        (fmt.Sprintf lib format v)) with
    | none => exact log_json_fallback lib range now w l lg ad level format v hl ha hle hj hm
    | some js => exact log_json lib range now w l lg ad level format v js hl ha hle hj hm

/-- C18: a derived logger has its parent's configuration. The logger returned
by WithFields has the level, sink, prefix, `log.Logger`, colour flag and JSON
flag of its parent at the time of the derivation. So, in the state after the
derivation, a call at a level is filtered on the derived logger exactly when it
is filtered on the parent, and a call that passes writes, on the same sink and
through the same `log.Logger`, what `rendered` gives for the same flags, the
only difference being the field set. WithField and WithError are WithFields on
a map of one entry. -/
theorem C18_derived_configuration (lib : Lib) (range : Fields → Fields) (w : World) (l : Nat)
    (lg : Logger) (ad : StdLogger) (hl : w.loggers[l]? = some lg)
    (ha : w.stdLoggers[lg.logger]? = some ad) (m : Fields) :
    (∃ w1 b lgB, Logger.WithFields lib range w l m = some (w1, b) ∧
      w1.loggers[b]? = some lgB ∧ w1.loggers[l]? = some lg ∧
      lgB.level = lg.level ∧ lgB.output = lg.output ∧ lgB.pfx = lg.pfx ∧
      lgB.logger = lg.logger ∧ lgB.colored = lg.colored ∧ lgB.jsonMode = lg.jsonMode ∧
      w1.stdLoggers[lgB.logger]? = some ad ∧
      (∀ (range' : Fields → Fields) (now : Time) (level : Level) (format : String)
          (v : List Value),
        (level < lg.level →
          Logger.log lib range' now w1 b level format v = some w1 ∧
            Logger.log lib range' now w1 l level format v = some w1) ∧
        (lg.level ≤ level →
          Logger.log lib range' now w1 b level format v =
              some (w1.logged ad.out
                (ad.line (Logger.rendered lib range' lg.colored lg.jsonMode
                  (w1.mapAt lgB.fields) level now (fmt.Sprintf lib format v))) level) ∧
            Logger.log lib range' now w1 l level format v =
              some (w1.logged ad.out
                (ad.line (Logger.rendered lib range' lg.colored lg.jsonMode
                  (w1.mapAt lg.fields) level now (fmt.Sprintf lib format v))) level)))) ∧
    (∀ key value, Logger.WithField lib range w l key value =
      Logger.WithFields lib range w l [(key, value)]) ∧
    (∀ msg, Logger.WithError lib range w l (some msg) =
      Logger.WithFields lib range w l [("error", Value.str msg)]) := by
  refine ⟨?_, fun _ _ => rfl, fun _ => rfl⟩
  rw [WithFields_eq lib range w l lg m hl]
  have hB : (w.loggers ++ [{ lg with fields := w.maps.length }])[w.loggers.length]? =
      some { lg with fields := w.maps.length } := loggers_append_new _ _
  have hA : (w.loggers ++ [{ lg with fields := w.maps.length }])[l]? = some lg :=
    loggers_append_old _ _ _ _ hl
  refine ⟨_, _, _, rfl, hB, hA, rfl, rfl, rfl, rfl, rfl, rfl, ha, ?_⟩
  intro range' now level format v
  constructor
  · intro hlt
    exact ⟨log_filtered lib range' now _ _ _ level format v hB hlt,
      log_filtered lib range' now _ _ _ level format v hA hlt⟩
  · intro hle
    exact ⟨log_rendered lib range' now
        { w with
          loggers := w.loggers ++ [{ lg with fields := w.maps.length }]
          maps := w.maps ++
            [Logger.addFields lib range m (Logger.copyFields range (w.mapAt lg.fields) [])] }
        w.loggers.length { lg with fields := w.maps.length } ad level format v hB ha hle,
      log_rendered lib range' now
        { w with
          loggers := w.loggers ++ [{ lg with fields := w.maps.length }]
          maps := w.maps ++
            [Logger.addFields lib range m (Logger.copyFields range (w.mapAt lg.fields) [])] }
        l lg ad level format v hA ha hle⟩

theorem C18_derived_configuration_witness :
    ∃ w1 b lgB, Logger.WithFields Lib.plain id jsonWorld 0 [("k", Value.int 1)] = some (w1, b) ∧
      w1.loggers[b]? = some lgB ∧ lgB.level = INFO ∧ lgB.output = 5 ∧ lgB.pfx = "" ∧
      lgB.logger = 0 ∧ lgB.colored = true ∧ lgB.jsonMode = true := by
  obtain ⟨⟨w1, b, lgB, h1, h2, _, h4, h5, h6, h7, h8, h9, _⟩, _⟩ :=
    C18_derived_configuration Lib.plain id jsonWorld 0
      { level := INFO, output := 5, pfx := "", logger := 0, colored := true, fields := 0,
        jsonMode := true }
      { out := 5, pfx := "" } rfl rfl [("k", Value.int 1)]
  exact ⟨w1, b, lgB, h1, h2, h4, h5, h6, h7, h8, h9⟩

/-- The result of WithField on a key of the denylist. -/
theorem WithField_sensitive (lib : Lib) (range : Fields → Fields) (hr : IsRange range)
    (w : World) (l : Nat) (lg : Logger) (hl : w.loggers[l]? = some lg) (key : String)
    (v : Value) (hk : strings.ToLower lib key ∈ denylist) :
    Logger.WithField lib range w l key v =
      some ({ w with
          loggers := w.loggers ++ [{ lg with fields := w.maps.length }]
          maps := w.maps ++
            [GoMap.set (Logger.copyFields range (w.mapAt lg.fields) []) key
              (Value.str "[FILTERED]")] },
        w.loggers.length) := by
  unfold Logger.WithField
  rw [WithFields_eq lib range w l lg _ hl, addFields_sensitive lib range hr key v _ hk]

/-- C19: noninterference of secret values. For every allocated logger, every
key whose lower-cased form is on the denylist and every two values, WithField
with the one value and WithField with the other return the same state and the
same logger, whose field set holds the marker under the key. So every logging
call made on the two results, at any level, time and message, in text or in
JSON mode, has the same outcome. When the two derivations iterate over the
parent's map in different orders, the two field sets still hold the same value
under every key. -/
theorem C19_noninterference (lib : Lib) (range : Fields → Fields) (hr : IsRange range)
    (w : World) (l : Nat) (lg : Logger) (hl : w.loggers[l]? = some lg) (key : String)
    (v1 v2 : Value) (hk : strings.ToLower lib key ∈ denylist) :
    Logger.WithField lib range w l key v1 = Logger.WithField lib range w l key v2 ∧
    (∃ w1 b lgB, Logger.WithField lib range w l key v1 = some (w1, b) ∧
      Logger.WithField lib range w l key v2 = some (w1, b) ∧
      w1.loggers[b]? = some lgB ∧
      GoMap.get (w1.mapAt lgB.fields) key = some (Value.str "[FILTERED]")) ∧
    (∀ (range' : Fields → Fields) (now : Time) (level : Level) (format : String)
        (args : List Value),
      (Logger.WithField lib range w l key v1).bind
          (fun r => Logger.log lib range' now r.1 r.2 level format args) =
        (Logger.WithField lib range w l key v2).bind
          (fun r => Logger.log lib range' now r.1 r.2 level format args)) ∧
    (∀ (ra rb : Fields → Fields), IsRange ra → IsRange rb → GoMap.WF (w.mapAt lg.fields) →
      ∃ wa ba lga wb bb lgb,
        Logger.WithField lib ra w l key v1 = some (wa, ba) ∧
        Logger.WithField lib rb w l key v2 = some (wb, bb) ∧
        wa.loggers[ba]? = some lga ∧ wb.loggers[bb]? = some lgb ∧
        ∀ k, GoMap.get (wa.mapAt lga.fields) k = GoMap.get (wb.mapAt lgb.fields) k) := by
  have h1 := WithField_sensitive lib range hr w l lg hl key v1 hk
  have h2 := WithField_sensitive lib range hr w l lg hl key v2 hk
  refine ⟨h1.trans h2.symm, ⟨_, _, _, h1, h2, loggers_append_new _ _, ?_⟩, ?_, ?_⟩
  · simp only []
    rw [mapAt_append_new]
    exact GoMap.get_set_self _ _ _
  · intro range' now level format args
    rw [h1, h2]
  · intro ra rb hra hrb hP
    refine ⟨_, _, _, _, _, _, WithField_sensitive lib ra hra w l lg hl key v1 hk,
      WithField_sensitive lib rb hrb w l lg hl key v2 hk, loggers_append_new _ _,
      loggers_append_new _ _, ?_⟩
    intro k
    simp only []
    rw [mapAt_append_new, mapAt_append_new, GoMap.get_set, GoMap.get_set,
      get_copyFields ra hra _ hP, get_copyFields rb hrb _ hP]

theorem C19_noninterference_witness :
    strings.ToLower Lib.plain "Token" ∈ denylist ∧
      Logger.WithField Lib.plain id sampleWorld 0 "Token" (Value.str "abc") =
        Logger.WithField Lib.plain id sampleWorld 0 "Token" (Value.int 42) ∧
      (Logger.WithField Lib.plain id sampleWorld 0 "Token" (Value.str "abc")).bind
          (fun r => Logger.log Lib.plain id sampleTime r.1 r.2 WARN "x" []) =
        (Logger.WithField Lib.plain id sampleWorld 0 "Token" (Value.int 42)).bind
          (fun r => Logger.log Lib.plain id sampleTime r.1 r.2 WARN "x" []) := by
  have h := C19_noninterference Lib.plain id (fun _ => List.Perm.refl _) sampleWorld 0
    { level := INFO, output := 5, pfx := "", logger := 0, colored := true, fields := 0,
      jsonMode := false } rfl "Token" (Value.str "abc") (Value.int 42) (by decide)
  exact ⟨by decide, h.1, h.2.2.1 id sampleTime WARN "x" []⟩

theorem getElem?_set_other {α : Type} (xs : List α) (i j : Nat) (x : α) (h : i ≠ j) :
    (xs.set i x)[j]? = xs[j]? := by
  simp [List.getElem?_set, h]

theorem lt_length_of_getElem? {α : Type} {xs : List α} {i : Nat} {a : α}
    (h : xs[i]? = some a) : i < xs.length := by
  by_contra hc
  rw [List.getElem?_eq_none (by omega)] at h
  exact Option.noConfusion h

/-- SetLevel writes the level of the one logger and nothing else. -/
theorem SetLevel_frame (w : World) (q : Nat) (lg : Logger) (level : Level)
    (hq : w.loggers[q]? = some lg) :
    ∃ w2, Logger.SetLevel w q level = some w2 ∧
      w2.loggers[q]? = some { lg with level := level } ∧
      (∀ i, i ≠ q → w2.loggers[i]? = w.loggers[i]?) ∧
      w2.maps = w.maps ∧ w2.stdLoggers = w.stdLoggers ∧ w2.trace = w.trace := by
  refine ⟨{ w with loggers := w.loggers.set q { lg with level := level } }, ?_,
    getElem?_set_self_of_some _ _ _ _ hq, ?_, rfl, rfl, rfl⟩
  · unfold Logger.SetLevel
    simp only [hq]
  · intro i hi
    exact getElem?_set_other _ _ _ _ (Ne.symm hi)

/-- SetColored writes the colour flag of the one logger and nothing else. -/
theorem SetColored_frame (w : World) (q : Nat) (lg : Logger) (colored : Bool)
    (hq : w.loggers[q]? = some lg) :
    ∃ w2, Logger.SetColored w q colored = some w2 ∧
      w2.loggers[q]? = some { lg with colored := colored } ∧
      (∀ i, i ≠ q → w2.loggers[i]? = w.loggers[i]?) ∧
      w2.maps = w.maps ∧ w2.stdLoggers = w.stdLoggers ∧ w2.trace = w.trace := by
  refine ⟨{ w with loggers := w.loggers.set q { lg with colored := colored } }, ?_,
    getElem?_set_self_of_some _ _ _ _ hq, ?_, rfl, rfl, rfl⟩
  · unfold Logger.SetColored
    simp only [hq]
  · intro i hi
    exact getElem?_set_other _ _ _ _ (Ne.symm hi)

/-- SetJSONMode writes the JSON flag of the one logger and nothing else. -/
theorem SetJSONMode_frame (w : World) (q : Nat) (lg : Logger) (enabled : Bool)
    (hq : w.loggers[q]? = some lg) :
    ∃ w2, Logger.SetJSONMode w q enabled = some w2 ∧
      w2.loggers[q]? = some { lg with jsonMode := enabled } ∧
      (∀ i, i ≠ q → w2.loggers[i]? = w.loggers[i]?) ∧
      w2.maps = w.maps ∧ w2.stdLoggers = w.stdLoggers ∧ w2.trace = w.trace := by
  refine ⟨{ w with loggers := w.loggers.set q { lg with jsonMode := enabled } }, ?_,
    getElem?_set_self_of_some _ _ _ _ hq, ?_, rfl, rfl, rfl⟩
  · unfold Logger.SetJSONMode
    simp only [hq]
  · intro i hi
    exact getElem?_set_other _ _ _ _ (Ne.symm hi)

/-- SetOutput gives the default logger the new sink and a new `log.Logger` on
it, and leaves every other logger and every allocated `log.Logger` as it was. -/
theorem SetOutput_frame (w : World) (lg : Logger) (out : Nat)
    (hq : w.loggers[defaultLogger]? = some lg) :
    ∃ w2, SetOutput w out = some w2 ∧
      w2.loggers[defaultLogger]? =
        some { lg with output := out, logger := w.stdLoggers.length } ∧
      w2.stdLoggers[w.stdLoggers.length]? = some { out := out, pfx := lg.pfx } ∧
      (∀ i, i ≠ defaultLogger → w2.loggers[i]? = w.loggers[i]?) ∧
      (∀ (a : Nat) (ad : StdLogger), w.stdLoggers[a]? = some ad → w2.stdLoggers[a]? = some ad) ∧
      w2.maps = w.maps ∧ w2.trace = w.trace := by
  refine ⟨{ w with
      loggers := w.loggers.set defaultLogger
        { lg with output := out, logger := w.stdLoggers.length }
      stdLoggers := w.stdLoggers ++ [{ out := out, pfx := lg.pfx }] }, ?_,
    getElem?_set_self_of_some _ _ _ _ hq, ?_, ?_, ?_, rfl, rfl⟩
  · unfold SetOutput
    simp only [hq]
  · simp
  · intro i hi
    exact getElem?_set_other _ _ _ _ (Ne.symm hi)
  · intro a ad ha
    simp only []
    rw [List.getElem?_append_left (lt_length_of_getElem? ha), ha]

/-- C20: derivation takes a snapshot of the configuration. After c is derived
from an allocated logger p by WithFields, a call of SetLevel, SetColored or
SetJSONMode on p changes the one field of p that the setter names and leaves c,
the maps, the `log.Logger`s and the trace as they were; the same call on c
changes that one field of c and leaves p as it was. When p is the default
logger, SetOutput gives p the new sink and a new `log.Logger` on it and leaves
c and the `log.Logger` that c took from p at the derivation as they were. No
setter changes a field set. -/
theorem C20_configuration_snapshot (lib : Lib) (range : Fields → Fields) (w : World) (p : Nat)
    (lgP : Logger) (ad : StdLogger) (hp : w.loggers[p]? = some lgP)
    (ha : w.stdLoggers[lgP.logger]? = some ad) (m : Fields) :
    ∃ w1 c lgC, Logger.WithFields lib range w p m = some (w1, c) ∧
      w1.loggers[c]? = some lgC ∧ w1.loggers[p]? = some lgP ∧ c ≠ p ∧
      w1.stdLoggers[lgC.logger]? = some ad ∧
      (∀ level, ∃ w2, Logger.SetLevel w1 p level = some w2 ∧
        w2.loggers[p]? = some { lgP with level := level } ∧ w2.loggers[c]? = some lgC ∧
        w2.maps = w1.maps ∧ w2.stdLoggers = w1.stdLoggers ∧ w2.trace = w1.trace) ∧
      (∀ colored, ∃ w2, Logger.SetColored w1 p colored = some w2 ∧
        w2.loggers[p]? = some { lgP with colored := colored } ∧ w2.loggers[c]? = some lgC ∧
        w2.maps = w1.maps ∧ w2.stdLoggers = w1.stdLoggers ∧ w2.trace = w1.trace) ∧
      (∀ enabled, ∃ w2, Logger.SetJSONMode w1 p enabled = some w2 ∧
        w2.loggers[p]? = some { lgP with jsonMode := enabled } ∧ w2.loggers[c]? = some lgC ∧
        w2.maps = w1.maps ∧ w2.stdLoggers = w1.stdLoggers ∧ w2.trace = w1.trace) ∧
      (∀ level, ∃ w2, Logger.SetLevel w1 c level = some w2 ∧
        w2.loggers[c]? = some { lgC with level := level } ∧ w2.loggers[p]? = some lgP ∧
        w2.maps = w1.maps ∧ w2.stdLoggers = w1.stdLoggers ∧ w2.trace = w1.trace) ∧
      (∀ colored, ∃ w2, Logger.SetColored w1 c colored = some w2 ∧
        w2.loggers[c]? = some { lgC with colored := colored } ∧ w2.loggers[p]? = some lgP ∧
        w2.maps = w1.maps ∧ w2.stdLoggers = w1.stdLoggers ∧ w2.trace = w1.trace) ∧
      (∀ enabled, ∃ w2, Logger.SetJSONMode w1 c enabled = some w2 ∧
        w2.loggers[c]? = some { lgC with jsonMode := enabled } ∧ w2.loggers[p]? = some lgP ∧
        w2.maps = w1.maps ∧ w2.stdLoggers = w1.stdLoggers ∧ w2.trace = w1.trace) ∧
      (p = defaultLogger → ∀ out, ∃ w2, SetOutput w1 out = some w2 ∧
        w2.loggers[p]? = some { lgP with output := out, logger := w1.stdLoggers.length } ∧
        w2.stdLoggers[w1.stdLoggers.length]? = some { out := out, pfx := lgP.pfx } ∧
        w2.loggers[c]? = some lgC ∧ w2.stdLoggers[lgC.logger]? = some ad ∧
        w2.maps = w1.maps ∧ w2.trace = w1.trace) := by
  have hlen : p < w.loggers.length := lt_length_of_getElem? hp
  have hcp : w.loggers.length ≠ p := by omega
  rw [WithFields_eq lib range w p lgP m hp]
  have key : ∀ (w1 : World) (c : Nat) (lgC : Logger), w1.loggers[c]? = some lgC →
      w1.loggers[p]? = some lgP → c ≠ p → w1.stdLoggers[lgC.logger]? = some ad →
      (∀ level, ∃ w2, Logger.SetLevel w1 p level = some w2 ∧
        w2.loggers[p]? = some { lgP with level := level } ∧ w2.loggers[c]? = some lgC ∧
        w2.maps = w1.maps ∧ w2.stdLoggers = w1.stdLoggers ∧ w2.trace = w1.trace) ∧
      (∀ colored, ∃ w2, Logger.SetColored w1 p colored = some w2 ∧
        w2.loggers[p]? = some { lgP with colored := colored } ∧ w2.loggers[c]? = some lgC ∧
        w2.maps = w1.maps ∧ w2.stdLoggers = w1.stdLoggers ∧ w2.trace = w1.trace) ∧
      (∀ enabled, ∃ w2, Logger.SetJSONMode w1 p enabled = some w2 ∧
        w2.loggers[p]? = some { lgP with jsonMode := enabled } ∧ w2.loggers[c]? = some lgC ∧
        w2.maps = w1.maps ∧ w2.stdLoggers = w1.stdLoggers ∧ w2.trace = w1.trace) ∧
      (∀ level, ∃ w2, Logger.SetLevel w1 c level = some w2 ∧
        w2.loggers[c]? = some { lgC with level := level } ∧ w2.loggers[p]? = some lgP ∧
        w2.maps = w1.maps ∧ w2.stdLoggers = w1.stdLoggers ∧ w2.trace = w1.trace) ∧
      (∀ colored, ∃ w2, Logger.SetColored w1 c colored = some w2 ∧
        w2.loggers[c]? = some { lgC with colored := colored } ∧ w2.loggers[p]? = some lgP ∧
        w2.maps = w1.maps ∧ w2.stdLoggers = w1.stdLoggers ∧ w2.trace = w1.trace) ∧
      (∀ enabled, ∃ w2, Logger.SetJSONMode w1 c enabled = some w2 ∧
        w2.loggers[c]? = some { lgC with jsonMode := enabled } ∧ w2.loggers[p]? = some lgP ∧
        w2.maps = w1.maps ∧ w2.stdLoggers = w1.stdLoggers ∧ w2.trace = w1.trace) ∧
      (p = defaultLogger → ∀ out, ∃ w2, SetOutput w1 out = some w2 ∧
        w2.loggers[p]? = some { lgP with output := out, logger := w1.stdLoggers.length } ∧
        w2.stdLoggers[w1.stdLoggers.length]? = some { out := out, pfx := lgP.pfx } ∧
        w2.loggers[c]? = some lgC ∧ w2.stdLoggers[lgC.logger]? = some ad ∧
        w2.maps = w1.maps ∧ w2.trace = w1.trace) := by
    intro w1 c lgC hC hP hne ha1
    refine ⟨?_, ?_, ?_, ?_, ?_, ?_, ?_⟩
    · intro level
      obtain ⟨w2, h1, h2, h3, h4, h5, h6⟩ := SetLevel_frame w1 p lgP level hP
      exact ⟨w2, h1, h2, (h3 _ hne).trans hC, h4, h5, h6⟩
    · intro colored
      obtain ⟨w2, h1, h2, h3, h4, h5, h6⟩ := SetColored_frame w1 p lgP colored hP
      exact ⟨w2, h1, h2, (h3 _ hne).trans hC, h4, h5, h6⟩
    · intro enabled
      obtain ⟨w2, h1, h2, h3, h4, h5, h6⟩ := SetJSONMode_frame w1 p lgP enabled hP
      exact ⟨w2, h1, h2, (h3 _ hne).trans hC, h4, h5, h6⟩
    · intro level
      obtain ⟨w2, h1, h2, h3, h4, h5, h6⟩ := SetLevel_frame w1 c lgC level hC
      exact ⟨w2, h1, h2, (h3 _ (Ne.symm hne)).trans hP, h4, h5, h6⟩
    · intro colored
      obtain ⟨w2, h1, h2, h3, h4, h5, h6⟩ := SetColored_frame w1 c lgC colored hC
      exact ⟨w2, h1, h2, (h3 _ (Ne.symm hne)).trans hP, h4, h5, h6⟩
    · intro enabled
      obtain ⟨w2, h1, h2, h3, h4, h5, h6⟩ := SetJSONMode_frame w1 c lgC enabled hC
      exact ⟨w2, h1, h2, (h3 _ (Ne.symm hne)).trans hP, h4, h5, h6⟩
    · intro hd out
      subst hd
      obtain ⟨w2, h1, h2, h3, h4, h5, h6, h7⟩ := SetOutput_frame w1 lgP out hP
      exact ⟨w2, h1, h2, h3, (h4 _ hne).trans hC, h5 _ ad ha1, h6, h7⟩
  have hC : (w.loggers ++ [{ lgP with fields := w.maps.length }])[w.loggers.length]? =
      some { lgP with fields := w.maps.length } := loggers_append_new _ _
  have hP : (w.loggers ++ [{ lgP with fields := w.maps.length }])[p]? = some lgP :=
    loggers_append_old _ _ _ _ hp
  exact ⟨{ w with
      loggers := w.loggers ++ [{ lgP with fields := w.maps.length }]
      maps := w.maps ++
        [Logger.addFields lib range m (Logger.copyFields range (w.mapAt lgP.fields) [])] },
    w.loggers.length, { lgP with fields := w.maps.length }, rfl, hC, hP, hcp, ha,
    key _ _ _ hC hP hcp ha⟩

theorem C20_configuration_snapshot_witness :
    ∃ w1 c lgC, WithFields Lib.plain id init.1 [("k", Value.int 1)] = some (w1, c) ∧
      w1.loggers[c]? = some lgC ∧
      ∃ w2, SetOutput w1 7 = some w2 ∧ w2.loggers[c]? = some lgC ∧
        w2.stdLoggers[lgC.logger]? = some { out := Stdout, pfx := "" } ∧
        w2.loggers[defaultLogger]? =
          some { level := DEBUG, output := 7, pfx := "", logger := 1, colored := true,
                 fields := 0, jsonMode := false } := by
  obtain ⟨w1, c, lgC, h1, h2, _, _, _, _, _, _, _, _, _, h12⟩ :=
    C20_configuration_snapshot Lib.plain id init.1 defaultLogger
      { level := DEBUG, output := Stdout, pfx := "", logger := 0, colored := true, fields := 0,
        jsonMode := false }
      { out := Stdout, pfx := "" } rfl rfl [("k", Value.int 1)]
  obtain ⟨w2, g1, g2, _, g4, g5, _, _⟩ := h12 rfl 7
  refine ⟨w1, c, lgC, h1, h2, w2, g1, g4, g5, ?_⟩
  rw [g2]
  have hlen : w1.stdLoggers.length = 1 := by
    have := congrArg (fun r => r.map (fun x => x.1.stdLoggers.length)) h1
    simpa [WithFields, Logger.WithFields, defaultLogger, init, NewLogger, World.empty] using this.symm
  rw [hlen]

/-- A logger whose field set holds the marker under a key renders it in every
form of the record: the record built by writeJSONLog holds it under that key,
and the text line, written in text mode and when `json.Marshal` fails, contains
the key, an equals sign and the quoted marker. -/
theorem log_marker (lib : Lib) (range : Fields → Fields) (hr : IsRange range) (now : Time)
    (w : World) (l : Nat) (lg : Logger) (ad : StdLogger) (level : Level) (format : String)
    (args : List Value) (key : String)
    (hl : w.loggers[l]? = some lg) (ha : w.stdLoggers[lg.logger]? = some ad)
    (hle : lg.level ≤ level) (hWF : GoMap.WF (w.mapAt lg.fields))
    (hget : GoMap.get (w.mapAt lg.fields) key = some (Value.str "[FILTERED]")) :
    ∃ data, Logger.log lib range now w l level format args =
        some (w.logged ad.out data level) ∧
      GoMap.get (Logger.logEntry range (w.mapAt lg.fields) level now
          (fmt.Sprintf lib format args)) key = some (Value.str "[FILTERED]") ∧
      (lg.jsonMode = false → Contains data (key ++ "=" ++ "\"[FILTERED]\"")) ∧
      (lg.jsonMode = true →
        lib.marshal (Logger.logEntry range (w.mapAt lg.fields) level now
          (fmt.Sprintf lib format args)) = none →
        Contains data (key ++ "=" ++ "\"[FILTERED]\"")) ∧
      (∀ js, lg.jsonMode = true →
        lib.marshal (Logger.logEntry range (w.mapAt lg.fields) level now
          (fmt.Sprintf lib format args)) = some js →
        data = ad.line (js ++ "\n")) := by
  have hf : formatValue lib (Value.str "[FILTERED]") = "\"[FILTERED]\"" := rfl
  have hline : Contains (ad.line (Logger.textLine lib range lg.colored (w.mapAt lg.fields)
      level now (fmt.Sprintf lib format args))) (key ++ "=" ++ "\"[FILTERED]\"") := by
    apply line_contains
    rw [← hf]
    exact textLine_contains_field lib range hr _ _ _ _ _ _ _ (mem_of_get hget)
  have hrec : GoMap.get (Logger.logEntry range (w.mapAt lg.fields) level now
      (fmt.Sprintf lib format args)) key = some (Value.str "[FILTERED]") := by
    rw [get_logEntry range hr _ hWF, hget]
  rcases Bool.eq_false_or_eq_true lg.jsonMode with hj | hj
  · cases hm : lib.marshal (Logger.logEntry range (w.mapAt lg.fields) level now
        (fmt.Sprintf lib format args)) with
    | none =>
      refine ⟨_, log_json_fallback lib range now w l lg ad level format args hl ha hle hj hm,
        hrec, fun _ => hline, fun _ _ => hline, ?_⟩
      intro js _ h
      exact absurd h (by simp)
    | some js0 =>
      refine ⟨_, log_json lib range now w l lg ad level format args js0 hl ha hle hj hm,
        hrec, ?_, ?_, ?_⟩
      · intro h
        rw [hj] at h
        exact absurd h (by decide)
      · intro _ h
        exact absurd h (by simp)
      · intro js _ h
        rw [Option.some.inj h]
  · refine ⟨_, log_text lib range now w l lg ad level format args hl ha hle hj,
      hrec, fun _ => hline, fun _ _ => hline, ?_⟩
    intro js h
    rw [hj] at h
    exact absurd h (by decide)

/-- C6, amended: redaction in the rendered output. For a key on the denylist
(any case) and every value v, WithField(key, v) returns the same state and
logger whatever v is, so no line that logger renders depends on v, and every
record it renders carries the marker in place of v, in each of the three
renderings: in text mode the line contains key="[FILTERED]"; in JSON mode the
record handed to `json.Marshal` holds "[FILTERED]" under key, and the line is
the JSON text of that record and a newline when `json.Marshal` succeeds, and
the text line, which contains key="[FILTERED]", when it fails. With colour and
JSON mode off and an empty field set,
WithField("password", "hunter2").Info("login attempt") writes a line that
contains password="[FILTERED]" and, when neither the prefix nor the timestamp
has the letter h, does not contain hunter2. -/
theorem C6_redaction_in_output (lib : Lib) (range : Fields → Fields) (hr : IsRange range)
    (w : World) (l : Nat) (lg : Logger) (ad : StdLogger) (hl : w.loggers[l]? = some lg)
    (ha : w.stdLoggers[lg.logger]? = some ad) (key : String) (v : Value)
    (hk : strings.ToLower lib key ∈ denylist) :
    (∃ w1 b lgB, Logger.WithField lib range w l key v = some (w1, b) ∧
      w1.loggers[b]? = some lgB ∧
      (∀ v', Logger.WithField lib range w l key v' = some (w1, b)) ∧
      (∀ (range' : Fields → Fields) (now : Time) (level : Level) (format : String)
          (args : List Value),
        IsRange range' → lgB.level ≤ level →
        ∃ data, Logger.log lib range' now w1 b level format args =
            some (w1.logged ad.out data level) ∧
          GoMap.get (Logger.logEntry range' (w1.mapAt lgB.fields) level now
              (fmt.Sprintf lib format args)) key = some (Value.str "[FILTERED]") ∧
          (lgB.jsonMode = false → Contains data (key ++ "=" ++ "\"[FILTERED]\"")) ∧
          (lgB.jsonMode = true →
            lib.marshal (Logger.logEntry range' (w1.mapAt lgB.fields) level now
              (fmt.Sprintf lib format args)) = none →
            Contains data (key ++ "=" ++ "\"[FILTERED]\"")) ∧
          (∀ js, lgB.jsonMode = true →
            lib.marshal (Logger.logEntry range' (w1.mapAt lgB.fields) level now
              (fmt.Sprintf lib format args)) = some js →
            data = ad.line (js ++ "\n")))) ∧
    (∀ (range' : Fields → Fields) (now : Time),
      IsRange range' → lg.colored = false → lg.jsonMode = false → lg.level ≤ INFO →
      w.mapAt lg.fields = [] → 'h' ∉ ad.pfx.data →
      'h' ∉ (now.Format "2006.01.02 15:04:05.000").data →
      ∃ w1 b data,
        Logger.WithField lib range w l "password" (Value.str "hunter2") = some (w1, b) ∧
        Logger.Info lib range' now w1 b "login attempt" [] =
          some (w1.emit (Event.write ad.out data)) ∧
        Contains data "password=\"[FILTERED]\"" ∧ ¬ Contains data "hunter2") := by
  constructor
  · have hW : ∀ v', Logger.WithField lib range w l key v' =
        some ({ w with
            loggers := w.loggers ++ [{ lg with fields := w.maps.length }]
            maps := w.maps ++
              [GoMap.set (Logger.copyFields range (w.mapAt lg.fields) []) key
                (Value.str "[FILTERED]")] },
          w.loggers.length) := by
      intro v'
      unfold Logger.WithField
      rw [WithFields_eq lib range w l lg _ hl, addFields_sensitive lib range hr key v' _ hk]
    have hmap := mapAt_append_new w (w.loggers ++ [{ lg with fields := w.maps.length }])
      (GoMap.set (Logger.copyFields range (w.mapAt lg.fields) []) key (Value.str "[FILTERED]"))
    refine ⟨_, _, _, hW v, loggers_append_new _ _, hW, ?_⟩
    intro range' now level format args hr' hle
    refine log_marker lib range' hr' now
      { w with
        loggers := w.loggers ++ [{ lg with fields := w.maps.length }]
        maps := w.maps ++
          [GoMap.set (Logger.copyFields range (w.mapAt lg.fields) []) key
            (Value.str "[FILTERED]")] }
      w.loggers.length { lg with fields := w.maps.length } ad level format args key
      (loggers_append_new _ _) ha hle ?_ ?_
    · show GoMap.WF (World.mapAt _ w.maps.length)
      rw [hmap]
      apply GoMap.WF_set
      unfold Logger.copyFields
      apply GoMap.WF_foldl_set
      exact List.nodup_nil
    · show GoMap.get (World.mapAt _ w.maps.length) key = _
      rw [hmap]
      exact GoMap.get_set_self _ _ _
  · intro range' now hr' hc hj hle hm hp ht
    have hW : Logger.WithField lib range w l "password" (Value.str "hunter2") =
        some ({ w with
            loggers := w.loggers ++ [{ lg with fields := w.maps.length }]
            maps := w.maps ++ [[("password", Value.str "[FILTERED]")]] },
          w.loggers.length) := by
      unfold Logger.WithField
      rw [WithFields_eq lib range w l lg _ hl, hm, derived_password lib range hr]
    refine ⟨_, _, ad.pfx ++ ("[INFO]  " ++ (now.Format "2006.01.02 15:04:05.000" ++
        " login attempt  password=\"[FILTERED]\"\n")), hW, ?_, ?_, ?_⟩
    · have hlog := log_text lib range' now
        { w with
          loggers := w.loggers ++ [{ lg with fields := w.maps.length }]
          maps := w.maps ++ [[("password", Value.str "[FILTERED]")]] }
        w.loggers.length { lg with fields := w.maps.length } ad INFO "login attempt" []
        (loggers_append_new _ _) ha hle hj
      simp only [] at hlog
      rw [mapAt_append_new] at hlog
      unfold Logger.Info
      rw [hlog, hc, scenario_line lib range' hr']
      rfl
    · apply contains_right
      apply contains_right
      apply contains_right
      unfold Contains
      decide
    · exact scenario_no_hunter2 _ _ hp ht

theorem C6_redaction_in_output_witness :
    ∃ w1 b data,
      Logger.WithField Lib.plain id plainWorld 0 "password" (Value.str "hunter2") =
          some (w1, b) ∧
        Logger.Info Lib.plain id sampleTime w1 b "login attempt" [] =
          some (w1.emit (Event.write 5 data)) ∧
        Contains data "password=\"[FILTERED]\"" ∧ ¬ Contains data "hunter2" :=
  (C6_redaction_in_output Lib.plain id (fun _ => List.Perm.refl _) plainWorld 0
      { level := INFO, output := 5, pfx := "", logger := 0, colored := false, fields := 0,
        jsonMode := false }
      { out := 5, pfx := "" } rfl rfl "password" (Value.str "hunter2") (by decide)).2
    id sampleTime (fun _ => List.Perm.refl _) rfl rfl (by decide) rfl (by decide) (by decide)

end logger
